import Mathlib

set_option maxRecDepth 100000

/-!
# Verification of the cryptographic voting core

A shallow embedding, in Lean 4, of the security-relevant parts of the
dual-ballot electronic voting system:

* `app/utils/shamir_crypto.py` — Shamir secret sharing over GF(2^521 − 1)
  (`ShamirSecretSharing.split_secret` / `reconstruct_secret`, with the
  extended-Euclid modular inverse `_mod_inverse` and Horner-free polynomial
  evaluation `_evaluate_polynomial`), and the hybrid RSA + Kyber + AES-GCM
  vote decryption `ElectionCrypto._decrypt_vote_hybrid`.
* `app/models/audit_log.py` — the hash-chained audit log
  (`AuditLog.save` / `AuditLog.verify_chain`).
* `app/models/vote.py` — receipt minting (`Vote.generate_receipt`) and
  verification (`Vote.verify_receipt`).
* `app/models/{voter,voting_token,vote}.py` `to_dict` document shapes.
* `app/services/vote_service.py` and `app/services/token_service.py` —
  token issuance and the two dual-ballot casting paths, modelled as state
  transformers over the document store.

Python's arbitrary-precision integers are embedded as `ℕ`/`ℤ` (Python `%`
on a positive modulus agrees with `Int.emod`, `//` with division of
non-negative operands).  Byte strings and hex strings are embedded as their
base-256 / base-16 big-endian digit lists (the character coding of a hex
string is injective, so nothing is lost).  External library primitives
(RSA-OAEP, ML-KEM, AES-GCM, SHA-256) are parameters of the definitions
that use them: the theorems quantify over them, adding collision-freeness
hypotheses exactly where the code relies on them.
-/

/-! ## Field constant: `PRIME = 2^521 - 1` (shamir_crypto.py line 26) -/

/-- `PRIME = 2**521 - 1`, the 13th Mersenne prime (`shamir_crypto.py`). -/
def PRIME : ℕ := 2 ^ 521 - 1

/-! ## Extended Euclid and `_mod_inverse` (shamir_crypto.py lines 48-59)

`extended_gcd(a, b)` of the source is only ever reached with
`a = a₀ % m ≥ 0` and `b = m > 0`, and all recursive calls keep both
arguments non-negative, so the first two arguments are embedded as `ℕ`
while the Bézout coefficients are `ℤ`. -/

/-- The recursion of `extended_gcd` (`shamir_crypto.py` lines 50-56),
written with an explicit fuel so that the kernel can evaluate it; the
fuel branch is unreachable whenever `a ≤ fuel` (the recursive call
strictly decreases `a` and keeps `a ≤ fuel`). -/
def egcdFuel : ℕ → ℕ → ℕ → ℕ × ℤ × ℤ
  | _, 0, b => (b, 0, 1)
  | 0, _ + 1, b => (b, 0, 1)
  | (f + 1), (a + 1), b =>
    let r := egcdFuel f (b % (a + 1)) (a + 1)
    (r.1, r.2.2 - (b / (a + 1)) * r.2.1, r.2.1)

/-- `extended_gcd` from `_mod_inverse` (`shamir_crypto.py` lines 50-56):
returns `(gcd, x, y)` with `a*x + b*y = gcd`. -/
def extended_gcd (a b : ℕ) : ℕ × ℤ × ℤ :=
  egcdFuel a a b

/-- `ShamirSecretSharing._mod_inverse` (`shamir_crypto.py` lines 48-59):
`_, x, _ = extended_gcd(a % m, m); return (x % m + m) % m`. -/
def mod_inverse (a : ℤ) (m : ℕ) : ℤ :=
  let r := extended_gcd (a % (m : ℤ)).toNat m
  (r.2.1 % (m : ℤ) + (m : ℤ)) % (m : ℤ)

/-! ## Byte strings and hex strings as digit lists -/

/-- Python `int.from_bytes(secret_bytes, byteorder='big')`: a byte string is
its big-endian base-256 digit list. -/
def bytesToInt (bs : List ℕ) : ℕ :=
  Nat.ofDigits 256 bs.reverse

/-- Little-endian digits of `v` in base `base`, with an explicit fuel so
that the kernel can evaluate it; agrees with `Nat.digits base v` whenever
`2 ≤ base` and `v ≤ fuel` (`digitsLE_eq_digits`). -/
def digitsLE (base : ℕ) : ℕ → ℕ → List ℕ
  | _, 0 => []
  | 0, _ + 1 => []
  | (f + 1), (v + 1) => ((v + 1) % base) :: digitsLE base f ((v + 1) / base)

/-- Big-endian digits of `v` in base `base`, left-padded with zeros to
`len` digits — the common shape of Python's `format(v,'x').zfill(len)`
(base 16) and `v.to_bytes(len, 'big')` (base 256). -/
def natToBE (base len v : ℕ) : List ℕ :=
  let ds := (digitsLE base v v).reverse
  List.replicate (len - ds.length) 0 ++ ds

/-- Python `int(y_hex, 16)` on a big-endian hex digit list. -/
def hexToInt (ds : List ℕ) : ℕ :=
  Nat.ofDigits 16 ds.reverse

/-- Python `v.to_bytes(secret_length, byteorder='big')`: raises
`OverflowError` (here `none`) unless `0 ≤ v < 256 ^ secret_length`. -/
def intToBytes (v : ℤ) (len : ℕ) : Option (List ℕ) :=
  if 0 ≤ v ∧ v < (256 : ℤ) ^ len then some (natToBE 256 len v.toNat) else none

/-- `len(format(self.prime, 'x'))` — the zero-fill width used for shares. -/
def primeHexWidth : ℕ := (digitsLE 16 PRIME PRIME).length

/-! ## Shamir split and reconstruct (shamir_crypto.py lines 61-137) -/

/-- `ShamirSecretSharing._evaluate_polynomial` (`shamir_crypto.py` lines
69-74): `result = (result + coef * pow(x, i, prime)) % prime` over the
enumerated coefficients. -/
def evaluate_polynomial (coefficients : List ℕ) (x : ℕ) : ℕ :=
  (List.range coefficients.length).foldl
    (fun result i => (result + coefficients.getD i 0 * (x ^ i % PRIME)) % PRIME) 0

/-- `ShamirSecretSharing.split_secret` (`shamir_crypto.py` lines 76-102).
The CSPRNG draws of `_generate_coefficients` (lines 61-67) are the
explicit argument `randCoeffs` (the coefficients after the constant term
`secret_int`), and `total_shares` is the `n` of the scheme.  Fails
(`ValueError: Secret too large`) when `int(secret) ≥ PRIME`. -/
def split_secret (total_shares : ℕ) (secretBytes : List ℕ) (randCoeffs : List ℕ) :
    Option (List (ℕ × List ℕ)) :=
  let secret_int := bytesToInt secretBytes
  if secret_int ≥ PRIME then none
  else
    let coefficients := secret_int :: randCoeffs
    some ((List.range total_shares).map (fun k =>
      (k + 1, natToBE 16 primeHexWidth (evaluate_polynomial coefficients (k + 1)))))

/-- The Lagrange-interpolation loop of `reconstruct_secret`
(`shamir_crypto.py` lines 123-134), on the already-decoded points:
for each position `i`, `numerator = Π (-xⱼ) % p` and
`denominator = Π (xᵢ-xⱼ) % p` over positions `j ≠ i`, then
`secret_int = (secret_int + yᵢ * ((numerator * inv(denominator)) % p)) % p`. -/
def lagrangeInterpolateAtZero (points : List (ℤ × ℤ)) : ℤ :=
  (List.range points.length).foldl
    (fun secret_int i =>
      let xi := (points.getD i (0, 0)).1
      let yi := (points.getD i (0, 0)).2
      let nd := (List.range points.length).foldl
        (fun nd j =>
          if i ≠ j then
            ((nd.1 * (-(points.getD j (0, 0)).1)) % (PRIME : ℤ),
             (nd.2 * (xi - (points.getD j (0, 0)).1)) % (PRIME : ℤ))
          else nd)
        (1, 1)
      let lagrange_coef := (nd.1 * mod_inverse nd.2 PRIME) % (PRIME : ℤ)
      (secret_int + yi * lagrange_coef) % (PRIME : ℤ))
    0

/-- `ShamirSecretSharing.reconstruct_secret` (`shamir_crypto.py` lines
104-137): fails below `threshold` shares, keeps `shares[:threshold]`
(without any deduplication), decodes the hex values, interpolates at 0 and
converts back with `to_bytes(secret_length, 'big')`. -/
def reconstruct_secret (threshold : ℕ) (shares : List (ℕ × List ℕ))
    (secret_length : ℕ) : Option (List ℕ) :=
  if shares.length < threshold then none
  else
    let points : List (ℤ × ℤ) :=
      (shares.take threshold).map (fun s => ((s.1 : ℤ), (hexToInt s.2 : ℤ)))
    intToBytes (lagrangeInterpolateAtZero points) secret_length

/-! ## Hybrid decryption (shamir_crypto.py lines 352-383)

The RSA-OAEP, ML-KEM-768 and AES-GCM primitives live in external
libraries (`pycryptodome`, `kyber_py`); they appear here as function
parameters, already closed over the respective private keys.  Byte
strings are `List ℕ`. -/

/-- `ElectionCrypto.AES_KEY_SIZE` (`shamir_crypto.py` line 148). -/
def AES_KEY_SIZE : ℕ := 32

/-- The base64-decoded fields of the hybrid encrypted package
(`shamir_crypto.py` lines 357-363). -/
structure EncryptedPackage where
  encrypted_key_rsa : List ℕ
  kyber_ciphertext : List ℕ
  kyber_protected_key : List ℕ
  nonce : List ℕ
  tag : List ℕ
  ciphertext : List ℕ

/-- The `ValueError` message raised on hybrid key mismatch
(`shamir_crypto.py` line 377). -/
def hybridMismatchMsg : String :=
  "Hybrid decryption failed: RSA and Kyber keys do not match"

/-- The `ValueError` raised by AES-GCM `decrypt_and_verify` on tag failure. -/
def macCheckFailedMsg : String := "MAC check failed"

/-- `ElectionCrypto._decrypt_vote_hybrid` (`shamir_crypto.py` lines
352-383).  `rsaDecrypt` is `PKCS1_OAEP.new(rsa_private_key).decrypt`,
`kyberDecaps` is `ML_KEM_768.decaps(kyber_private_key, ·)`, and
`aesGcmDecrypt key nonce tag ct` is AES-GCM decryption returning `none`
exactly when the tag check fails.  The XOR recombination
`bytes(a ^ b for a, b in zip(...))` is `List.zipWith Nat.xor` (Python's
`zip` truncates to the shorter operand). -/
def decrypt_vote_hybrid
    (rsaDecrypt : List ℕ → List ℕ) (kyberDecaps : List ℕ → List ℕ)
    (aesGcmDecrypt : List ℕ → List ℕ → List ℕ → List ℕ → Option (List ℕ))
    (pkg : EncryptedPackage) : Except String (List ℕ) :=
  let aes_key_from_rsa := rsaDecrypt pkg.encrypted_key_rsa
  let kyber_shared_secret := kyberDecaps pkg.kyber_ciphertext
  let aes_key_from_kyber :=
    List.zipWith Nat.xor pkg.kyber_protected_key (kyber_shared_secret.take AES_KEY_SIZE)
  if aes_key_from_rsa ≠ aes_key_from_kyber then Except.error hybridMismatchMsg
  else
    match aesGcmDecrypt aes_key_from_rsa pkg.nonce pkg.tag pkg.ciphertext with
    | some vote_json => Except.ok vote_json
    | none => Except.error macCheckFailedMsg

/-! ## Stored-document shapes (models/{voter,voting_token,vote}.py)

`to_dict` of each model fixes exactly which keys each stored document
carries; the claim about elector anonymity is a property of these key
sets.  Values are embedded in a small sum type. -/

/-- A MongoDB document value (only the shapes the three models store). -/
inductive DocValue where
  | str (v : String)
  | num (v : ℕ)
  | boolean (v : Bool)
  | strList (v : List String)
  | optStr (v : Option String)
  | optNum (v : Option ℕ)
deriving DecidableEq

/-- A stored document: ordered field list, as built by `to_dict`. -/
abbrev MongoDoc := List (String × DocValue)

/-- `Voter.__init__` state (`models/voter.py` lines 13-27). -/
structure VoterM where
  voterId : String
  citizenshipNumberHash : String
  passwordHash : String
  fullName : String
  constituency : String
  registeredAt : ℕ
  electionsVoted : List String
  tokenIssuedFor : List String
deriving DecidableEq

/-- `Voter.to_dict` (`models/voter.py` lines 33-47); the optional `_id`
never carries voter-identifying keys and is omitted. -/
def voterToDict (v : VoterM) : MongoDoc :=
  [("voter_id", .str v.voterId),
   ("citizenship_number_hash", .str v.citizenshipNumberHash),
   ("password_hash", .str v.passwordHash),
   ("full_name", .str v.fullName),
   ("constituency", .str v.constituency),
   ("registered_at", .num v.registeredAt),
   ("elections_voted", .strList v.electionsVoted),
   ("token_issued_for", .strList v.tokenIssuedFor)]

/-- `VotingToken.__init__` state (`models/voting_token.py` lines 17-29). -/
structure TokenM where
  tokenId : String
  electionId : String
  constituency : String
  ballotsAllowed : List String
  ballotsUsed : List String
  isFullyUsed : Bool
  createdAt : ℕ
  usedAt : Option ℕ
deriving DecidableEq

/-- `VotingToken.to_dict` (`models/voting_token.py` lines 31-45). -/
def tokenToDict (t : TokenM) : MongoDoc :=
  [("token_id", .str t.tokenId),
   ("election_id", .str t.electionId),
   ("constituency", .str t.constituency),
   ("ballots_allowed", .strList t.ballotsAllowed),
   ("ballots_used", .strList t.ballotsUsed),
   ("is_fully_used", .boolean t.isFullyUsed),
   ("created_at", .num t.createdAt),
   ("used_at", .optNum t.usedAt)]

/-- `Vote.__init__` state (`models/vote.py` lines 20-37).  `token_id` is
`token_id or generate_vote_token()`, hence always present. -/
structure VoteM where
  electionId : String
  ballotType : String
  candidateId : Option String
  partyId : Option String
  encryptedVote : Option String
  constituency : Option String
  timestamp : ℕ
  tokenId : String
  receiptId : Option String
  receiptHash : Option String
  timestampStr : Option String
deriving DecidableEq

/-- `Vote.to_dict` (`models/vote.py` lines 39-54); note that
`candidate_id` / `party_id` are *not* stored — only the ciphertext is. -/
def voteToDict (v : VoteM) : MongoDoc :=
  [("election_id", .str v.electionId),
   ("ballot_type", .str v.ballotType),
   ("encrypted_vote", .optStr v.encryptedVote),
   ("constituency", .optStr v.constituency),
   ("timestamp", .num v.timestamp),
   ("token_id", .str v.tokenId),
   ("receipt_id", .optStr v.receiptId),
   ("receipt_hash", .optStr v.receiptHash),
   ("timestamp_str", .optStr v.timestampStr)]

/-- The extra keys `Vote.verify_receipt` pushes onto matching vote
documents (`models/vote.py` lines 360-379). -/
def voteDocAfterVerification (v : VoteM) (history : List ℕ) (lastVerifiedAt : ℕ)
    (verificationCount : ℕ) : MongoDoc :=
  voteToDict v ++
  [("verification_history", .strList (history.map (fun _ => ""))),
   ("last_verified_at", .num lastVerifiedAt),
   ("verification_count", .num verificationCount)]

/-- Whether a stored document has a field named `k`. -/
def docHasKey (d : MongoDoc) (k : String) : Prop :=
  k ∈ d.map Prod.fst

/-- A document breaks elector anonymity when it simultaneously names an
elector (`voter_id`) and a token or a ballot ciphertext. -/
def linksElectorToBallot (d : MongoDoc) : Prop :=
  docHasKey d "voter_id" ∧ (docHasKey d "token_id" ∨ docHasKey d "encrypted_vote")

/-- Every document the public operations ever place in the `voters`,
`voting_tokens` and `votes` collections: `to_dict` output of the three
models (vote documents possibly extended by the receipt-verification
update). -/
inductive StoredDoc where
  | voterDoc (v : VoterM)
  | tokenDoc (t : TokenM)
  | voteDoc (v : VoteM)
  | verifiedVoteDoc (v : VoteM) (history : List ℕ) (lastAt cnt : ℕ)

/-- The document each `StoredDoc` case denotes. -/
def StoredDoc.doc : StoredDoc → MongoDoc
  | .voterDoc v => voterToDict v
  | .tokenDoc t => tokenToDict t
  | .voteDoc v => voteToDict v
  | .verifiedVoteDoc v h l c => voteDocAfterVerification v h l c

/-! ## Audit hash chain (models/audit_log.py)

`_compute_hash` serialises a fixed 10-key mapping with
`json.dumps(data, sort_keys=True)` and hashes it with SHA-256.  The
serialisation of that mapping is injective, so the model hashes the
mapping itself: the hash is a parameter `H : AuditHashInput → String`,
and the theorems carry collision-freeness hypotheses exactly where the
code relies on SHA-256 being collision free.  The MongoDB store returns
entries sorted by `timestamp`; the model works on the chronologically
ordered entry list (entries are appended with non-decreasing
timestamps). -/

/-- A Python `datetime`: its second-precision part (as the
`'%Y-%m-%dT%H:%M:%S'` string) and its microseconds.
`replace(microsecond=0).strftime(...)` keeps only `ymdhms`. -/
structure PyDateTime where
  ymdhms : String
  micro : ℕ
deriving DecidableEq

/-- The mapping hashed by `AuditLog._compute_hash` (`models/audit_log.py`
lines 98-119): the ten keys of `data`, with the timestamp already
normalised to second precision. -/
structure AuditHashInput where
  category : String
  event_type : String
  message : String
  user_id : Option String
  user_type : Option String
  ip_address : Option String
  user_agent : Option String
  details : String
  timestamp : Option String
  previous_hash : Option String
deriving DecidableEq

/-- `AuditLog.GENESIS_HASH` (`models/audit_log.py` line 38). -/
def GENESIS_HASH : String := "GENESIS"

/-- A stored audit log entry (`models/audit_log.py` lines 40-57); `eid`
models the MongoDB `_id` (insertion order).  `details` stands for the
canonically serialised details dict. -/
structure AuditEntryM where
  eid : ℕ
  category : String
  event_type : String
  message : String
  user_id : Option String
  user_type : Option String
  ip_address : Option String
  user_agent : Option String
  details : String
  timestamp : Option PyDateTime
  entry_hash : String
  previous_hash : Option String
deriving DecidableEq

/-- The timestamp normalisation of `_compute_hash`
(`models/audit_log.py` lines 100-104). -/
def normalizedTs : Option PyDateTime → Option String
  | some d => some d.ymdhms
  | none => none

/-- The hash input `data` built by `AuditLog._compute_hash`
(`models/audit_log.py` lines 106-117). -/
def auditHashInput (e : AuditEntryM) : AuditHashInput :=
  { category := e.category
    event_type := e.event_type
    message := e.message
    user_id := e.user_id
    user_type := e.user_type
    ip_address := e.ip_address
    user_agent := e.user_agent
    details := e.details
    timestamp := normalizedTs e.timestamp
    previous_hash := e.previous_hash }

/-- `AuditLog._compute_hash` (`models/audit_log.py` lines 98-119), with
the SHA-256-of-canonical-JSON step as the parameter `H`. -/
def computeHash (H : AuditHashInput → String) (e : AuditEntryM) : String :=
  H (auditHashInput e)

/-- `AuditLog._get_latest_hash` (`models/audit_log.py` lines 121-131) on
the chronologically ordered chain: the newest entry's hash, or
`"GENESIS"` for an empty chain. -/
def getLatestHash (chain : List AuditEntryM) : String :=
  match chain.getLast? with
  | some e => e.entry_hash
  | none => GENESIS_HASH

/-- The caller-supplied fields of a new audit entry (`AuditLog.log`,
`models/audit_log.py` lines 148-178). -/
structure PendingAudit where
  category : String
  event_type : String
  message : String
  user_id : Option String
  user_type : Option String
  ip_address : Option String
  user_agent : Option String
  details : String
  timestamp : Option PyDateTime
deriving DecidableEq

/-- `AuditLog.save` (`models/audit_log.py` lines 133-146): set
`previous_hash` from the latest entry, compute `entry_hash`, insert. -/
def saveAudit (H : AuditHashInput → String) (chain : List AuditEntryM)
    (p : PendingAudit) : List AuditEntryM :=
  let prev := getLatestHash chain
  let e : AuditEntryM :=
    { eid := chain.length
      category := p.category
      event_type := p.event_type
      message := p.message
      user_id := p.user_id
      user_type := p.user_type
      ip_address := p.ip_address
      user_agent := p.user_agent
      details := p.details
      timestamp := p.timestamp
      entry_hash := ""
      previous_hash := some prev }
  chain ++ [{ e with entry_hash := computeHash H e }]

/-- A chain built by consecutive `AuditLog.save` calls from the empty
collection. -/
def buildChain (H : AuditHashInput → String) (ps : List PendingAudit) :
    List AuditEntryM :=
  ps.foldl (saveAudit H) []

/-- Why `verify_chain` stopped. -/
inductive ChainBreak where
  | prevMismatch
  | hashMismatch
deriving DecidableEq

/-- The dict returned by `AuditLog.verify_chain`
(`models/audit_log.py` lines 279-337). -/
structure ChainVerifyResult where
  valid : Bool
  entries_checked : ℕ
  first_invalid_id : Option ℕ
  error : Option ChainBreak
deriving DecidableEq

/-- The verification walk of `AuditLog.verify_chain`
(`models/audit_log.py` lines 303-331): check the `previous_hash` link,
then the recomputed hash, then continue with `expected_previous_hash`
set to the stored `entry_hash`. -/
def verifyFrom (H : AuditHashInput → String) (expected : String)
    (checked : ℕ) : List AuditEntryM → ChainVerifyResult
  | [] => ⟨true, checked, none, none⟩
  | e :: rest =>
    if e.previous_hash ≠ some expected then
      ⟨false, checked + 1, some e.eid, some ChainBreak.prevMismatch⟩
    else if computeHash H e ≠ e.entry_hash then
      ⟨false, checked + 1, some e.eid, some ChainBreak.hashMismatch⟩
    else verifyFrom H e.entry_hash (checked + 1) rest

/-- `AuditLog.verify_chain` (without a `limit`), on the chronologically
ordered entry list. -/
def verify_chain (H : AuditHashInput → String)
    (entries : List AuditEntryM) : ChainVerifyResult :=
  verifyFrom H GENESIS_HASH 0 entries

/-! ## Receipts (models/vote.py lines 275-405)

SHA-256 on the receipt string is again a parameter `H : String → String`. -/

/-- The hash input `f"{receipt_id}:{election_id}:{timestamp_str}"`
(`models/vote.py` lines 296 and 342). -/
def receiptHashInput (receipt_id election_id timestamp_str : String) : String :=
  receipt_id ++ ":" ++ election_id ++ ":" ++ timestamp_str

/-- `Vote.generate_receipt` (`models/vote.py` lines 275-299).
`ridHex` is the `secrets.token_hex(6).upper()` draw and `timestamp_str`
the `'%Y-%m-%d %H:%M:%S'` rendering of the timestamp. -/
def generate_receipt (H : String → String) (ridHex : String)
    (election_id timestamp_str : String) : String × String × String :=
  let receipt_id := "RCP-" ++ ridHex
  (receipt_id, H (receiptHashInput receipt_id election_id timestamp_str), timestamp_str)

/-- The fields of a stored vote document read by `Vote.verify_receipt`;
`timestampFmt` is the `'%Y-%m-%d %H:%M:%S'` rendering of the stored
`timestamp`, used only by the legacy fallback branch. -/
structure ReceiptVoteDoc where
  receiptId : Option String
  electionId : String
  timestampStr : Option String
  receiptHash : Option String
  ballotType : String
  timestampFmt : String
deriving DecidableEq

/-- `Vote.find_by_receipt_id` (`models/vote.py` lines 301-313). -/
def findByReceiptId (votes : List ReceiptVoteDoc) (receipt_id : String) :
    List ReceiptVoteDoc :=
  votes.filter (fun v => v.receiptId == some receipt_id)

/-- The verification outcome of `Vote.verify_receipt`: `valid` plus the
`message` field of the returned dict. -/
structure ReceiptVerifyResult where
  valid : Bool
  message : String
deriving DecidableEq

/-- `Vote.verify_receipt` (`models/vote.py` lines 316-353, the integrity
part): fetch all votes sharing the receipt id, recompute the hash of the
*first* one from its stored fields, compare with its stored
`receipt_hash`. -/
def verify_receipt (H : String → String) (votes : List ReceiptVoteDoc)
    (receipt_id : String) : ReceiptVerifyResult :=
  match findByReceiptId votes receipt_id with
  | [] => ⟨false, "Receipt not found. Please check your receipt ID."⟩
  | primary :: _ =>
    let hash_input :=
      match primary.timestampStr with
      | some ts =>
        receiptHashInput (primary.receiptId.getD "") primary.electionId ts
      | none =>
        receiptHashInput (primary.receiptId.getD "") primary.electionId
          primary.timestampFmt
    if primary.receiptHash ≠ some (H hash_input) then
      ⟨false, "Receipt integrity check failed."⟩
    else ⟨true, "Your votes were successfully recorded."⟩

/-! ## Elections, tokens and the casting services
(models/election.py, services/token_service.py, services/vote_service.py)

The MongoDB collections are lists of typed records; `find_one` is the
first list match, `update_one` rewrites the first matching record.
`datetime.utcnow()` readings are a `now : ℕ` parameter; CSPRNG draws
(token ids, receipt ids) and the vote encryption are parameters as
well. -/

/-- One entry of `Election.candidates` (`models/election.py` line 23). -/
structure CandidateM where
  candidateId : String
  name : String
  party : String
  constituency : String
deriving DecidableEq

/-- One entry of `Election.parties` (`models/election.py` line 24). -/
structure PartyM where
  partyId : String
  name : String
deriving DecidableEq

/-- `Election.__init__` state (`models/election.py` lines 14-31). -/
structure ElectionM where
  electionId : String
  name : String
  description : String
  candidates : List CandidateM
  parties : List PartyM
  totalPrSeats : ℕ
  startDate : ℕ
  endDate : ℕ
  isActive : Bool
  publicKey : Option String
  encryptedKeyBundle : Option String
deriving DecidableEq

/-- `Election.is_ongoing` (`models/election.py` lines 87-90):
`is_active and start_date <= now <= end_date`. -/
def isOngoing (e : ElectionM) (now : ℕ) : Bool :=
  e.isActive && decide (e.startDate ≤ now) && decide (now ≤ e.endDate)

/-- `Election.has_ended` (`models/election.py` lines 92-94). -/
def hasEnded (e : ElectionM) (now : ℕ) : Bool :=
  decide (now > e.endDate)

/-- `Election.get_candidate` (`models/election.py` lines 100-105). -/
def getCandidate (e : ElectionM) (candidate_id : String) : Option CandidateM :=
  e.candidates.find? (fun c => c.candidateId == candidate_id)

/-- `Election.get_party` (`models/election.py` lines 111-116). -/
def getParty (e : ElectionM) (party_id : String) : Option PartyM :=
  e.parties.find? (fun p => p.partyId == party_id)

/-- The five persisted collections as far as the casting flows touch
them. -/
structure DBState where
  elections : List ElectionM
  voters : List VoterM
  tokens : List TokenM
  votes : List VoteM
deriving DecidableEq

/-- `Election.find_by_election_id` (`models/election.py` lines 216-221). -/
def findElection (st : DBState) (election_id : String) : Option ElectionM :=
  st.elections.find? (fun e => e.electionId == election_id)

/-- `VotingToken.find_by_token_id` (`models/voting_token.py` lines 148-153). -/
def findToken (st : DBState) (token_id : String) : Option TokenM :=
  st.tokens.find? (fun t => t.tokenId == token_id)

/-- `Voter.has_voted_in` (`models/voter.py` lines 84-86). -/
def hasVotedIn (v : VoterM) (election_id : String) : Bool :=
  v.electionsVoted.contains election_id

/-- `Voter.has_token_for` (`models/voter.py` lines 98-100). -/
def hasTokenFor (v : VoterM) (election_id : String) : Bool :=
  v.tokenIssuedFor.contains election_id

/-- `Voter.mark_voted` on the voter object (`models/voter.py` lines
88-96): append unless already present. -/
def markVoted (v : VoterM) (election_id : String) : VoterM :=
  if v.electionsVoted.contains election_id then v
  else { v with electionsVoted := v.electionsVoted ++ [election_id] }

/-- `Voter.mark_token_issued` on the voter object (`models/voter.py`
lines 102-114). -/
def markTokenIssued (v : VoterM) (election_id : String) : VoterM :=
  if v.tokenIssuedFor.contains election_id then v
  else { v with tokenIssuedFor := v.tokenIssuedFor ++ [election_id] }

/-- The `update_one` write accompanying `mark_voted` /
`mark_token_issued`: replace the voter's stored document. -/
def updateVoter (st : DBState) (v : VoterM) : DBState :=
  { st with voters := st.voters.map (fun w => if w.voterId == v.voterId then v else w) }

/-- `update_one`: rewrite the first record matching `pred` with `f`. -/
def updateFirst (pred : α → Bool) (f : α → α) : List α → List α
  | [] => []
  | x :: xs => if pred x then f x :: xs else x :: updateFirst pred f xs

/-- `VotingToken.BALLOT_TYPES` (`models/voting_token.py` line 15). -/
def BALLOT_TYPES : List String := ["fptp", "pr"]

/-- `VotingToken.is_valid_for_ballot` (`models/voting_token.py` lines
77-85). -/
def isValidForBallot (t : TokenM) (ballot_type : String) : Bool :=
  if t.isFullyUsed then false
  else if !t.ballotsAllowed.contains ballot_type then false
  else if t.ballotsUsed.contains ballot_type then false
  else true

/-- `VotingToken.mark_ballot_used` (`models/voting_token.py` lines
87-127): the atomic conditional update — succeed on (and rewrite) the
first stored token with this id on which `ballot_type` is unused and
which is not fully used; `will_be_fully_used` is computed from the
*fetched* object `t`. -/
def markBallotUsed (st : DBState) (t : TokenM) (ballot_type : String)
    (now : ℕ) : Bool × DBState :=
  if !BALLOT_TYPES.contains ballot_type then (false, st)
  else
    let willBeFullyUsed := decide (t.ballotsUsed.length + 1 ≥ t.ballotsAllowed.length)
    let pred := fun (d : TokenM) =>
      d.tokenId == t.tokenId && !d.ballotsUsed.contains ballot_type && !d.isFullyUsed
    let upd := fun (d : TokenM) =>
      { d with
        ballotsUsed := d.ballotsUsed ++ [ballot_type]
        isFullyUsed := if willBeFullyUsed then true else d.isFullyUsed
        usedAt := if willBeFullyUsed then some now else d.usedAt }
    if st.tokens.any pred then
      (true, { st with tokens := updateFirst pred upd st.tokens })
    else (false, st)

/-- `TokenService.issue_token` (`services/token_service.py` lines 14-59).
`newTokenId` is the fresh `generate_vote_token()` draw (the uniqueness
retry loop of `VotingToken.create` is the freshness of that draw).
Returns `(success, message, token_id?)` and the new store. -/
def issue_token (st : DBState) (voter : VoterM) (election_id : String)
    (now : ℕ) (newTokenId : String) : Bool × String × Option String × DBState :=
  match findElection st election_id with
  | none => (false, "Election not found", none, st)
  | some election =>
    if !isOngoing election now then
      if hasEnded election now then
        (false, "This election has ended", none, st)
      else
        (false, "This election has not started yet", none, st)
    else if hasVotedIn voter election_id then
      (false, "You have already voted in this election", none, st)
    else if hasTokenFor voter election_id then
      (false, "A voting token has already been issued for this election", none, st)
    else
      let token : TokenM :=
        { tokenId := newTokenId
          electionId := election_id
          constituency := voter.constituency
          ballotsAllowed := ["fptp", "pr"]
          ballotsUsed := []
          isFullyUsed := false
          createdAt := now
          usedAt := none }
      let st1 := { st with tokens := st.tokens ++ [token] }
      let st2 := updateVoter st1 (markTokenIssued voter election_id)
      (true, "Voting token issued successfully", some newTokenId, st2)

/-- `TokenService.validate_token` (`services/token_service.py` lines
61-94); `ballot_type = none` is the call without that argument. -/
def validate_token (st : DBState) (token_id : String) (election_id : String)
    (ballot_type : Option String) : Bool × String × Option TokenM :=
  if token_id == "" then (false, "Token is required", none)
  else
    match findToken st token_id with
    | none => (false, "Invalid voting token", none)
    | some token =>
      if token.electionId != election_id then
        (false, "Token is not valid for this election", none)
      else if token.isFullyUsed then
        (false, "This voting token has already been used", none)
      else
        match ballot_type with
        | some bt =>
          if !isValidForBallot token bt then
            (false, "Token has already been used for " ++ bt.toUpper ++ " ballot", none)
          else (true, "Token is valid", some token)
        | none => (true, "Token is valid", some token)

/-- `TokenService.validate_token_constituency`
(`services/token_service.py` lines 160-179). -/
def validate_token_constituency (st : DBState) (token_id : String)
    (constituency : String) : Bool × String :=
  match findToken st token_id with
  | none => (false, "Invalid voting token")
  | some token =>
    if token.constituency != constituency then
      (false, "Token constituency does not match")
    else (true, "Token constituency is valid")

/-- `TokenService.use_token_for_ballot` (`services/token_service.py`
lines 96-126). -/
def use_token_for_ballot (st : DBState) (token_id : String)
    (ballot_type : String) (now : ℕ) : Bool × String × DBState :=
  if !BALLOT_TYPES.contains ballot_type then
    (false, "Invalid ballot type: " ++ ballot_type, st)
  else
    match findToken st token_id with
    | none => (false, "Invalid voting token", st)
    | some token =>
      if token.isFullyUsed then
        (false, "This voting token has already been fully used", st)
      else if !isValidForBallot token ballot_type then
        (false, "Token has already been used for " ++ ballot_type.toUpper ++ " ballot", st)
      else
        let (success, st1) := markBallotUsed st token ballot_type now
        if !success then
          (false, "Failed to use token - it may have already been used", st1)
        else (true, "Token used for " ++ ballot_type.toUpper ++ " ballot", st1)

/-- The plaintext `vote_data` dict passed to `ElectionCrypto.encrypt_vote`
by `Vote.cast_fptp_vote` / `cast_pr_vote`. -/
inductive BallotData where
  | fptp (candidate_id constituency : String)
  | pr (party_id : String)
deriving DecidableEq

/-- The CSPRNG draws and clock renderings consumed by one
`cast_fptp_vote` / `cast_pr_vote` call: the `generate_vote_token()`
fallback token id, the `secrets.token_hex(6).upper()` receipt fragment
and the `'%Y-%m-%d %H:%M:%S'` rendering of `utcnow`. -/
structure CastDraws where
  genTok : String
  genReceiptHex : String
  nowStr : String
deriving DecidableEq

/-- `Vote.cast_fptp_vote` (`models/vote.py` lines 89-138).  `enc` is
`ElectionCrypto.encrypt_vote` under the election public key (closed over
its own CSPRNG draws), `H` is SHA-256 for the receipt of the
receipt-less path. -/
def cast_fptp_vote (enc : String → BallotData → String) (H : String → String)
    (draws : CastDraws) (st : DBState) (election_id candidate_id
    constituency public_key : String) (token_id : Option String)
    (receipt : Option (String × String × String)) (timestamp : Option ℕ)
    (now : ℕ) : VoteM × DBState :=
  let encrypted_vote := enc public_key (BallotData.fptp candidate_id constituency)
  let ts := timestamp.getD now
  let (receipt_id, receipt_hash, timestamp_str) :=
    match receipt with
    | some (rid, rhash, tstr) => (rid, rhash, tstr)
    | none => generate_receipt H draws.genReceiptHex election_id draws.nowStr
  let vote : VoteM :=
    { electionId := election_id
      ballotType := "fptp"
      candidateId := none
      partyId := none
      encryptedVote := some encrypted_vote
      constituency := some constituency
      timestamp := ts
      tokenId := token_id.getD draws.genTok
      receiptId := some receipt_id
      receiptHash := some receipt_hash
      timestampStr := some timestamp_str }
  (vote, { st with votes := st.votes ++ [vote] })

/-- `Vote.cast_pr_vote` (`models/vote.py` lines 140-186); no
`constituency` is stored on PR ballots. -/
def cast_pr_vote (enc : String → BallotData → String) (H : String → String)
    (draws : CastDraws) (st : DBState) (election_id party_id
    public_key : String) (token_id : Option String)
    (receipt : Option (String × String × String)) (timestamp : Option ℕ)
    (now : ℕ) : VoteM × DBState :=
  let encrypted_vote := enc public_key (BallotData.pr party_id)
  let ts := timestamp.getD now
  let (receipt_id, receipt_hash, timestamp_str) :=
    match receipt with
    | some (rid, rhash, tstr) => (rid, rhash, tstr)
    | none => generate_receipt H draws.genReceiptHex election_id draws.nowStr
  let vote : VoteM :=
    { electionId := election_id
      ballotType := "pr"
      candidateId := none
      partyId := none
      encryptedVote := some encrypted_vote
      constituency := none
      timestamp := ts
      tokenId := token_id.getD draws.genTok
      receiptId := some receipt_id
      receiptHash := some receipt_hash
      timestampStr := some timestamp_str }
  (vote, { st with votes := st.votes ++ [vote] })

/-- `VoteService.cast_dual_ballot` (`services/vote_service.py` lines
15-83) — the token-less legacy path.  The two ballot casts draw their
own receipts and token ids (`drawsF`, `drawsP`).  The `try` body cannot
raise in the model, so the `except` branch is not represented. -/
def cast_dual_ballot (enc : String → BallotData → String)
    (H : String → String) (drawsF drawsP : CastDraws) (st : DBState)
    (voter : VoterM) (election_id candidate_id party_id : String)
    (now : ℕ) : Bool × String × DBState :=
  match findElection st election_id with
  | none => (false, "Election not found", st)
  | some election =>
    if !isOngoing election now then
      if hasEnded election now then (false, "This election has ended", st)
      else (false, "This election has not started yet", st)
    else if hasVotedIn voter election_id then
      (false, "You have already voted in this election", st)
    else
      match getCandidate election candidate_id with
      | none => (false, "Invalid candidate selection", st)
      | some candidate =>
        if candidate.constituency != voter.constituency then
          (false, "You can only vote for candidates in your constituency", st)
        else
          match getParty election party_id with
          | none => (false, "Invalid party selection", st)
          | some _ =>
            match election.publicKey with
            | none => (false, "Election encryption not configured", st)
            | some public_key =>
              let (_, st1) := cast_fptp_vote enc H drawsF st election_id
                candidate_id voter.constituency public_key none none none now
              let (_, st2) := cast_pr_vote enc H drawsP st1 election_id
                party_id public_key none none none now
              let st3 := updateVoter st2 (markVoted voter election_id)
              (true, "Your dual ballot has been cast successfully!", st3)

/-- `VoteService.cast_dual_ballot_with_token` (`services/vote_service.py`
lines 85-203).  Returns `(success, message, receipt_info?)`, where
`receipt_info` is the `receipt_id` of the shared receipt, and the new
store. -/
def cast_dual_ballot_with_token (enc : String → BallotData → String)
    (H : String → String) (draws : CastDraws) (st : DBState)
    (voter : VoterM) (election_id candidate_id party_id token_id : String)
    (now : ℕ) : Bool × String × Option String × DBState :=
  match findElection st election_id with
  | none => (false, "Election not found", none, st)
  | some election =>
    if !isOngoing election now then
      if hasEnded election now then (false, "This election has ended", none, st)
      else (false, "This election has not started yet", none, st)
    else if hasVotedIn voter election_id then
      (false, "You have already voted in this election", none, st)
    else
      match validate_token st token_id election_id none with
      | (false, msg, _) => (false, msg, none, st)
      | (true, _, _) =>
        match validate_token_constituency st token_id voter.constituency with
        | (false, msg) => (false, msg, none, st)
        | (true, _) =>
          match getCandidate election candidate_id with
          | none => (false, "Invalid candidate selection", none, st)
          | some candidate =>
            if candidate.constituency != voter.constituency then
              (false, "You can only vote for candidates in your constituency", none, st)
            else
              match getParty election party_id with
              | none => (false, "Invalid party selection", none, st)
              | some _ =>
                match election.publicKey with
                | none => (false, "Election encryption not configured", none, st)
                | some public_key =>
                  let (receipt_id, receipt_hash, timestamp_str) :=
                    generate_receipt H draws.genReceiptHex election_id draws.nowStr
                  match use_token_for_ballot st token_id "fptp" now with
                  | (false, msg, st1) =>
                    (false, "FPTP ballot failed: " ++ msg, none, st1)
                  | (true, _, st1) =>
                    let (_, st2) := cast_fptp_vote enc H draws st1 election_id
                      candidate_id voter.constituency public_key (some token_id)
                      (some (receipt_id, receipt_hash, timestamp_str)) (some now) now
                    match use_token_for_ballot st2 token_id "pr" now with
                    | (false, msg, st3) =>
                      (false, "PR ballot failed: " ++ msg, none, st3)
                    | (true, _, st3) =>
                      let (_, st4) := cast_pr_vote enc H draws st3 election_id
                        party_id public_key (some token_id)
                        (some (receipt_id, receipt_hash, timestamp_str)) (some now) now
                      let st5 := updateVoter st4 (markVoted voter election_id)
                      (true, "Your dual ballot has been cast successfully!",
                       some receipt_id, st5)

/-- The hash expected after walking a chain segment: the last entry's
hash, or the incoming expectation for an empty segment. -/
def chainTail (exp : String) (l : List AuditEntryM) : String :=
  match l.getLast? with
  | some e => e.entry_hash
  | none => exp

/-- A concrete injective-on-purpose stand-in for SHA-256 over the audit
hash input, used only to instantiate witnesses and counterexamples:
field-separated concatenation with option tags. -/
def encodeOptStr : Option String → String
  | some s => "S" ++ s
  | none => "N"

/-- Concrete hash-input encoder (see `encodeOptStr`). -/
def encodeAuditInput (i : AuditHashInput) : String :=
  i.category ++ "|" ++ i.event_type ++ "|" ++ i.message ++ "|" ++
  encodeOptStr i.user_id ++ "|" ++ encodeOptStr i.user_type ++ "|" ++
  encodeOptStr i.ip_address ++ "|" ++ encodeOptStr i.user_agent ++ "|" ++
  i.details ++ "|" ++ encodeOptStr i.timestamp ++ "|" ++
  encodeOptStr i.previous_hash

/-- The elector-set invariant of the spec: the elections a voter has
voted in are among those for which a token was issued to them
(`elections_voted ⊆ token_issued_for` on `models/voter.py`). -/
def voterInv (v : VoterM) : Prop :=
  ∀ e ∈ v.electionsVoted, e ∈ v.tokenIssuedFor

instance (v : VoterM) : Decidable (voterInv v) := by
  unfold voterInv
  infer_instance

/-- The sharing polynomial over `GF(PRIME)` whose coefficient list is the
one `_generate_coefficients` produced (constant term first); proof-side
companion of `evaluate_polynomial`. -/
noncomputable def coeffsPoly (coefficients : List ℕ) : Polynomial (ZMod PRIME) :=
  ∑ k ∈ Finset.range coefficients.length,
    Polynomial.C ((coefficients.getD k 0 : ℕ) : ZMod PRIME) * Polynomial.X ^ k

/-! # Theorems -/

/-! ## C2 — hybrid decryption requires both recovered keys to agree -/

/-- **C2.** Hybrid decryption exercises both schemes: decryption succeeds
only when the AES key recovered via RSA-OAEP equals the AES key recovered
by XORing `kyber_protected_key` with the ML-KEM-768 decapsulated shared
secret, and whenever the two recovered keys differ,
`_decrypt_vote_hybrid` fails with the hybrid-mismatch `ValueError` and
returns no plaintext. -/
theorem hybrid_decrypt_requires_key_agreement
    (rsaDecrypt : List ℕ → List ℕ) (kyberDecaps : List ℕ → List ℕ)
    (aesGcmDecrypt : List ℕ → List ℕ → List ℕ → List ℕ → Option (List ℕ))
    (pkg : EncryptedPackage) :
    (rsaDecrypt pkg.encrypted_key_rsa ≠
        List.zipWith Nat.xor pkg.kyber_protected_key
          ((kyberDecaps pkg.kyber_ciphertext).take AES_KEY_SIZE) →
      decrypt_vote_hybrid rsaDecrypt kyberDecaps aesGcmDecrypt pkg =
        Except.error hybridMismatchMsg) ∧
    (∀ pt, decrypt_vote_hybrid rsaDecrypt kyberDecaps aesGcmDecrypt pkg =
        Except.ok pt →
      rsaDecrypt pkg.encrypted_key_rsa =
        List.zipWith Nat.xor pkg.kyber_protected_key
          ((kyberDecaps pkg.kyber_ciphertext).take AES_KEY_SIZE)) := by
  constructor
  · intro hne
    simp only [decrypt_vote_hybrid, if_pos hne]
  · intro pt hok
    by_contra hne
    simp only [decrypt_vote_hybrid, if_pos hne] at hok
    exact absurd hok (by simp)

/-- Witness for C2 at a concrete package where the two recovered keys
differ: decryption returns the hybrid-mismatch error. -/
theorem hybrid_decrypt_requires_key_agreement_witness :
    decrypt_vote_hybrid (fun _ => [1]) (fun _ => [])
      (fun _ _ _ _ => none) ⟨[], [], [], [], [], []⟩ =
      Except.error hybridMismatchMsg :=
  (hybrid_decrypt_requires_key_agreement (fun _ => [1]) (fun _ => [])
    (fun _ _ _ _ => none) ⟨[], [], [], [], [], []⟩).1 (by decide)

/-! ## C3 — stored documents never link an elector to a token or ballot -/

/-- **C3.** Elector anonymity invariant: every document the public
operations store in the `voters`, `voting_tokens` and `votes` collections
(the `to_dict` images, vote documents possibly extended by the
receipt-verification update) carries `voter_id` only without `token_id`
or `encrypted_vote`, and vice versa; vote records carry `token_id` and
`encrypted_vote` but no `voter_id`, token records carry no voter
reference, and voter records carry no token or ballot reference. -/
theorem stored_documents_never_link_elector_to_ballot :
    ∀ d : StoredDoc, ¬ linksElectorToBallot d.doc := by
  intro d
  cases d with
  | voterDoc v =>
    intro h
    rcases h with ⟨-, h | h⟩ <;>
      simp [voterToDict, docHasKey, StoredDoc.doc] at h
  | tokenDoc t =>
    intro h
    rcases h with ⟨h, -⟩
    simp [tokenToDict, docHasKey, StoredDoc.doc] at h
  | voteDoc v =>
    intro h
    rcases h with ⟨h, -⟩
    simp [voteToDict, docHasKey, StoredDoc.doc] at h
  | verifiedVoteDoc v hist l c =>
    intro h
    rcases h with ⟨h, -⟩
    simp [voteDocAfterVerification, voteToDict, docHasKey, StoredDoc.doc] at h

/-! ## C10 — deactivated elections inside their date window -/

/-- **C10.** An election carries an `is_active` flag distinct from its
date window (`is_ongoing = is_active ∧ start ≤ now ≤ end`), and for every
election with `is_active = false`, both `issue_token` and
`cast_dual_ballot_with_token` fail without creating any token or ballot
record even when `start_date ≤ now ≤ end_date`; the failure message is
"This election has not started yet" (the has-ended / not-started report,
never mentioning deactivation). -/
theorem inactive_election_rejected_as_not_started
    (st : DBState) (voter : VoterM) (election_id : String) (now : ℕ)
    (newTokenId : String) (enc : String → BallotData → String)
    (H : String → String) (draws : CastDraws)
    (candidate_id party_id token_id : String) (e : ElectionM)
    (hfind : findElection st election_id = some e)
    (hinactive : e.isActive = false)
    (hstart : e.startDate ≤ now) (hend : now ≤ e.endDate) :
    issue_token st voter election_id now newTokenId =
      (false, "This election has not started yet", none, st) ∧
    cast_dual_ballot_with_token enc H draws st voter election_id
        candidate_id party_id token_id now =
      (false, "This election has not started yet", none, st) := by
  have hongoing : isOngoing e now = false := by
    simp [isOngoing, hinactive]
  have hended : hasEnded e now = false := by
    simp [hasEnded]
    omega
  constructor
  · simp [issue_token, hfind, hongoing, hended]
  · simp [cast_dual_ballot_with_token, hfind, hongoing, hended]

/-- Witness for C10: a concrete deactivated election whose window
contains `now`; both operations report "not started" and leave the store
unchanged. -/
theorem inactive_election_rejected_as_not_started_witness :
    issue_token
        ⟨[⟨"E1", "n", "d", [], [], 1, 0, 10, false, some "pk", none⟩], [], [], []⟩
        ⟨"V1", "c", "p", "f", "Kathmandu", 0, [], []⟩ "E1" 5 "T1" =
      (false, "This election has not started yet", none,
        ⟨[⟨"E1", "n", "d", [], [], 1, 0, 10, false, some "pk", none⟩], [], [], []⟩) ∧
    cast_dual_ballot_with_token (fun _ _ => "ct") (fun _ => "h") ⟨"T0", "RH", "TS"⟩
        ⟨[⟨"E1", "n", "d", [], [], 1, 0, 10, false, some "pk", none⟩], [], [], []⟩
        ⟨"V1", "c", "p", "f", "Kathmandu", 0, [], []⟩ "E1" "C1" "P1" "T1" 5 =
      (false, "This election has not started yet", none,
        ⟨[⟨"E1", "n", "d", [], [], 1, 0, 10, false, some "pk", none⟩], [], [], []⟩) :=
  inactive_election_rejected_as_not_started
    ⟨[⟨"E1", "n", "d", [], [], 1, 0, 10, false, some "pk", none⟩], [], [], []⟩
    ⟨"V1", "c", "p", "f", "Kathmandu", 0, [], []⟩ "E1" 5 "T1"
    (fun _ _ => "ct") (fun _ => "h") ⟨"T0", "RH", "TS"⟩ "C1" "P1" "T1"
    ⟨"E1", "n", "d", [], [], 1, 0, 10, false, some "pk", none⟩
    (by decide) (by decide) (by decide) (by decide)

/-! ## C4 — partial-cast behaviour of `cast_dual_ballot_with_token` -/

/-- `mark_ballot_used` only rewrites the `voting_tokens` collection. -/
theorem markBallotUsed_voters_votes (st : DBState) (t : TokenM)
    (ballot_type : String) (now : ℕ) :
    (markBallotUsed st t ballot_type now).2.voters = st.voters ∧
    (markBallotUsed st t ballot_type now).2.votes = st.votes := by
  unfold markBallotUsed
  dsimp only
  repeat' split
  all_goals exact ⟨rfl, rfl⟩

/-- `use_token_for_ballot` only rewrites the `voting_tokens` collection. -/
theorem use_token_for_ballot_voters_votes (st : DBState) (token_id : String)
    (ballot_type : String) (now : ℕ) :
    (use_token_for_ballot st token_id ballot_type now).2.2.voters = st.voters ∧
    (use_token_for_ballot st token_id ballot_type now).2.2.votes = st.votes := by
  unfold use_token_for_ballot
  split
  · exact ⟨rfl, rfl⟩
  · cases hft : findToken st token_id with
    | none => exact ⟨rfl, rfl⟩
    | some token =>
      simp only
      split
      · exact ⟨rfl, rfl⟩
      · split
        · exact ⟨rfl, rfl⟩
        · have h := markBallotUsed_voters_votes st token ballot_type now
          rcases hmb : markBallotUsed st token ballot_type now with ⟨bb, st1⟩
          rw [hmb] at h
          dsimp only at h
          dsimp only
          split <;> exact h

/-- **C4 (amended).** `cast_dual_ballot_with_token` marks the elector as
voted only in the fully successful case: on every failure return —
including the partial cast where the FPTP ballot was consumed and stored
but the PR token consumption then fails — the voter documents are left
unchanged (the elector is *not* marked as voted); when a failure return
nevertheless stored a ballot, that ballot is the FPTP one and the
surfaced error is the partial-cast message "PR ballot failed: …"; and on
success both ballot records are stored and the elector is marked voted. -/
theorem cast_with_token_marks_voted_only_on_full_success
    (enc : String → BallotData → String) (H : String → String)
    (draws : CastDraws) (st : DBState) (voter : VoterM)
    (election_id candidate_id party_id token_id : String) (now : ℕ) :
    ((cast_dual_ballot_with_token enc H draws st voter election_id
        candidate_id party_id token_id now).1 = false →
      (cast_dual_ballot_with_token enc H draws st voter election_id
        candidate_id party_id token_id now).2.2.2.voters = st.voters ∧
      ((cast_dual_ballot_with_token enc H draws st voter election_id
          candidate_id party_id token_id now).2.2.2.votes = st.votes ∨
       (∃ vF : VoteM, vF.ballotType = "fptp" ∧
         (cast_dual_ballot_with_token enc H draws st voter election_id
           candidate_id party_id token_id now).2.2.2.votes = st.votes ++ [vF] ∧
         (∃ m : String, (cast_dual_ballot_with_token enc H draws st voter
           election_id candidate_id party_id token_id now).2.1 =
             "PR ballot failed: " ++ m)))) ∧
    ((cast_dual_ballot_with_token enc H draws st voter election_id
        candidate_id party_id token_id now).1 = true →
      (∃ vF vP : VoteM, vF.ballotType = "fptp" ∧ vP.ballotType = "pr" ∧
        (cast_dual_ballot_with_token enc H draws st voter election_id
          candidate_id party_id token_id now).2.2.2.votes =
            st.votes ++ [vF, vP]) ∧
      (cast_dual_ballot_with_token enc H draws st voter election_id
        candidate_id party_id token_id now).2.2.2.voters =
        st.voters.map (fun w =>
          if w.voterId == voter.voterId then markVoted voter election_id
          else w)) := by
  unfold cast_dual_ballot_with_token
  cases hfe : findElection st election_id with
  | none => simp
  | some election =>
    simp only
    split
    · split <;> simp
    · split
      · simp
      · rcases hvt : validate_token st token_id election_id none with ⟨bv, mv, tv⟩
        cases bv with
        | false => simp
        | true =>
          simp only
          rcases hvc : validate_token_constituency st token_id
            voter.constituency with ⟨bc, mc⟩
          cases bc with
          | false => simp
          | true =>
            simp only
            cases hgc : getCandidate election candidate_id with
            | none => simp
            | some candidate =>
              simp only
              split
              · simp
              · cases hgp : getParty election party_id with
                | none => simp
                | some party =>
                  simp only
                  cases hpk : election.publicKey with
                  | none => simp
                  | some public_key =>
                    simp only
                    rcases hu1 : use_token_for_ballot st token_id "fptp" now
                      with ⟨b1, m1, st1⟩
                    have hst1 := use_token_for_ballot_voters_votes st token_id
                      "fptp" now
                    rw [hu1] at hst1
                    dsimp only at hst1
                    cases b1 with
                    | false =>
                      simp only
                      refine ⟨fun _ => ⟨hst1.1, Or.inl hst1.2⟩, fun h => ?_⟩
                      exact absurd h (by simp)
                    | true =>
                      simp only
                      rcases hu2 : use_token_for_ballot
                        ((cast_fptp_vote enc H draws st1 election_id
                          candidate_id voter.constituency public_key
                          (some token_id)
                          (some (generate_receipt H draws.genReceiptHex
                            election_id draws.nowStr)) (some now) now).2)
                        token_id "pr" now with ⟨b2, m2, st3⟩
                      have hst3 := use_token_for_ballot_voters_votes
                        ((cast_fptp_vote enc H draws st1 election_id
                          candidate_id voter.constituency public_key
                          (some token_id)
                          (some (generate_receipt H draws.genReceiptHex
                            election_id draws.nowStr)) (some now) now).2)
                        token_id "pr" now
                      rw [hu2] at hst3
                      dsimp only at hst3
                      have hv2 : (cast_fptp_vote enc H draws st1 election_id
                          candidate_id voter.constituency public_key
                          (some token_id)
                          (some (generate_receipt H draws.genReceiptHex
                            election_id draws.nowStr)) (some now) now).2.votes =
                          st1.votes ++ [(cast_fptp_vote enc H draws st1
                            election_id candidate_id voter.constituency
                            public_key (some token_id)
                            (some (generate_receipt H draws.genReceiptHex
                              election_id draws.nowStr)) (some now) now).1] := rfl
                      cases b2 with
                      | false =>
                        simp only
                        refine ⟨fun _ => ⟨?_, Or.inr ⟨(cast_fptp_vote enc H draws
                          st1 election_id candidate_id voter.constituency
                          public_key (some token_id)
                          (some (generate_receipt H draws.genReceiptHex
                            election_id draws.nowStr)) (some now) now).1,
                          rfl, ?_, ⟨m2, rfl⟩⟩⟩,
                          fun h => absurd h (by simp)⟩
                        · rw [hst3.1]
                          exact hst1.1
                        · rw [hst3.2, hv2, hst1.2]
                      | true =>
                        simp only
                        refine ⟨fun h => absurd h (by simp), fun _ => ⟨?_, ?_⟩⟩
                        · refine ⟨(cast_fptp_vote enc H draws st1 election_id
                            candidate_id voter.constituency public_key
                            (some token_id)
                            (some (generate_receipt H draws.genReceiptHex
                              election_id draws.nowStr)) (some now) now).1,
                            (cast_pr_vote enc H draws st3 election_id party_id
                              public_key (some token_id)
                              (some (generate_receipt H draws.genReceiptHex
                                election_id draws.nowStr)) (some now) now).1,
                            rfl, rfl, ?_⟩
                          have hv4 : (cast_pr_vote enc H draws st3 election_id
                              party_id public_key (some token_id)
                              (some (generate_receipt H draws.genReceiptHex
                                election_id draws.nowStr)) (some now) now).2.votes =
                              st3.votes ++ [(cast_pr_vote enc H draws st3
                                election_id party_id public_key (some token_id)
                                (some (generate_receipt H draws.genReceiptHex
                                  election_id draws.nowStr)) (some now) now).1] := rfl
                          show (updateVoter _ _).votes = _
                          have hup : ∀ (s : DBState) (v : VoterM),
                              (updateVoter s v).votes = s.votes := fun _ _ => rfl
                          rw [hup, hv4, hst3.2, hv2, hst1.2, List.append_assoc]
                          rfl
                        · show (updateVoter _ _).voters = _
                          unfold updateVoter
                          simp only
                          have hv4 : (cast_pr_vote enc H draws st3 election_id
                              party_id public_key (some token_id)
                              (some (generate_receipt H draws.genReceiptHex
                                election_id draws.nowStr)) (some now) now).2.voters =
                              st3.voters := rfl
                          have hmv : (markVoted voter election_id).voterId =
                              voter.voterId := by
                            unfold markVoted
                            split <;> rfl
                          rw [hmv, hv4, hst3.1]
                          exact congrArg (List.map _) hst1.1

/-- Witness for C4 (amended): a concrete fully successful dual cast
stores both ballots and marks the elector as voted. -/
theorem cast_with_token_marks_voted_only_on_full_success_witness :
    (∃ vF vP : VoteM, vF.ballotType = "fptp" ∧ vP.ballotType = "pr" ∧
      (cast_dual_ballot_with_token (fun _ _ => "ct") (fun _ => "h")
        ⟨"T0", "RH", "TS"⟩
        ⟨[⟨"E1", "n", "d", [⟨"C1", "cn", "p", "Kathmandu"⟩], [⟨"P1", "pn"⟩],
           1, 0, 10, true, some "pk", none⟩],
         [⟨"V1", "c", "p", "f", "Kathmandu", 0, [], ["E1"]⟩],
         [⟨"TK1", "E1", "Kathmandu", ["fptp", "pr"], [], false, 0, none⟩], []⟩
        ⟨"V1", "c", "p", "f", "Kathmandu", 0, [], ["E1"]⟩
        "E1" "C1" "P1" "TK1" 5).2.2.2.votes = [] ++ [vF, vP]) ∧
    (cast_dual_ballot_with_token (fun _ _ => "ct") (fun _ => "h")
        ⟨"T0", "RH", "TS"⟩
        ⟨[⟨"E1", "n", "d", [⟨"C1", "cn", "p", "Kathmandu"⟩], [⟨"P1", "pn"⟩],
           1, 0, 10, true, some "pk", none⟩],
         [⟨"V1", "c", "p", "f", "Kathmandu", 0, [], ["E1"]⟩],
         [⟨"TK1", "E1", "Kathmandu", ["fptp", "pr"], [], false, 0, none⟩], []⟩
        ⟨"V1", "c", "p", "f", "Kathmandu", 0, [], ["E1"]⟩
        "E1" "C1" "P1" "TK1" 5).2.2.2.voters =
      [⟨"V1", "c", "p", "f", "Kathmandu", 0, [], ["E1"]⟩].map (fun w =>
        if w.voterId == "V1" then
          markVoted ⟨"V1", "c", "p", "f", "Kathmandu", 0, [], ["E1"]⟩ "E1"
        else w) :=
  (cast_with_token_marks_voted_only_on_full_success (fun _ _ => "ct")
    (fun _ => "h") ⟨"T0", "RH", "TS"⟩
    ⟨[⟨"E1", "n", "d", [⟨"C1", "cn", "p", "Kathmandu"⟩], [⟨"P1", "pn"⟩],
       1, 0, 10, true, some "pk", none⟩],
     [⟨"V1", "c", "p", "f", "Kathmandu", 0, [], ["E1"]⟩],
     [⟨"TK1", "E1", "Kathmandu", ["fptp", "pr"], [], false, 0, none⟩], []⟩
    ⟨"V1", "c", "p", "f", "Kathmandu", 0, [], ["E1"]⟩
    "E1" "C1" "P1" "TK1" 5).2 (by decide)

/-- Counterexample to C4 as stated: a run in which the FPTP ballot is
consumed and stored and the PR token consumption then fails (the token
only had the FPTP slot left), yet the elector is *not* marked as having
voted — the voter document is unchanged while the partial-cast error is
surfaced. -/
theorem cast_with_token_partial_failure_leaves_elector_unmarked :
    (cast_dual_ballot_with_token (fun _ _ => "ct") (fun _ => "h")
        ⟨"T0", "RH", "TS"⟩
        ⟨[⟨"E1", "n", "d", [⟨"C1", "cn", "p", "Kathmandu"⟩], [⟨"P1", "pn"⟩],
           1, 0, 10, true, some "pk", none⟩],
         [⟨"V1", "c", "p", "f", "Kathmandu", 0, [], ["E1"]⟩],
         [⟨"TK1", "E1", "Kathmandu", ["fptp", "pr"], ["pr"], false, 0, none⟩], []⟩
        ⟨"V1", "c", "p", "f", "Kathmandu", 0, [], ["E1"]⟩
        "E1" "C1" "P1" "TK1" 5).1 = false ∧
    (cast_dual_ballot_with_token (fun _ _ => "ct") (fun _ => "h")
        ⟨"T0", "RH", "TS"⟩
        ⟨[⟨"E1", "n", "d", [⟨"C1", "cn", "p", "Kathmandu"⟩], [⟨"P1", "pn"⟩],
           1, 0, 10, true, some "pk", none⟩],
         [⟨"V1", "c", "p", "f", "Kathmandu", 0, [], ["E1"]⟩],
         [⟨"TK1", "E1", "Kathmandu", ["fptp", "pr"], ["pr"], false, 0, none⟩], []⟩
        ⟨"V1", "c", "p", "f", "Kathmandu", 0, [], ["E1"]⟩
        "E1" "C1" "P1" "TK1" 5).2.1 =
      "PR ballot failed: This voting token has already been fully used" ∧
    ((cast_dual_ballot_with_token (fun _ _ => "ct") (fun _ => "h")
        ⟨"T0", "RH", "TS"⟩
        ⟨[⟨"E1", "n", "d", [⟨"C1", "cn", "p", "Kathmandu"⟩], [⟨"P1", "pn"⟩],
           1, 0, 10, true, some "pk", none⟩],
         [⟨"V1", "c", "p", "f", "Kathmandu", 0, [], ["E1"]⟩],
         [⟨"TK1", "E1", "Kathmandu", ["fptp", "pr"], ["pr"], false, 0, none⟩], []⟩
        ⟨"V1", "c", "p", "f", "Kathmandu", 0, [], ["E1"]⟩
        "E1" "C1" "P1" "TK1" 5).2.2.2.voters =
      [⟨"V1", "c", "p", "f", "Kathmandu", 0, [], ["E1"]⟩]) ∧
    ((cast_dual_ballot_with_token (fun _ _ => "ct") (fun _ => "h")
        ⟨"T0", "RH", "TS"⟩
        ⟨[⟨"E1", "n", "d", [⟨"C1", "cn", "p", "Kathmandu"⟩], [⟨"P1", "pn"⟩],
           1, 0, 10, true, some "pk", none⟩],
         [⟨"V1", "c", "p", "f", "Kathmandu", 0, [], ["E1"]⟩],
         [⟨"TK1", "E1", "Kathmandu", ["fptp", "pr"], ["pr"], false, 0, none⟩], []⟩
        ⟨"V1", "c", "p", "f", "Kathmandu", 0, [], ["E1"]⟩
        "E1" "C1" "P1" "TK1" 5).2.2.2.votes.map VoteM.ballotType = ["fptp"]) := by
  decide

/-! ## C9 — the elector-set invariant `voted_in ⊆ token_issued_for` -/

/-- `mark_token_issued` preserves the elector-set invariant. -/
theorem voterInv_markTokenIssued (v : VoterM) (e : String)
    (h : voterInv v) : voterInv (markTokenIssued v e) := by
  unfold markTokenIssued
  split
  · exact h
  · intro x hx
    exact List.mem_append_left _ (h x hx)

/-- `mark_voted` preserves the elector-set invariant exactly when the
election is already among the voter's issued tokens. -/
theorem voterInv_markVoted (v : VoterM) (e : String)
    (h : voterInv v) (he : e ∈ v.tokenIssuedFor) :
    voterInv (markVoted v e) := by
  unfold markVoted
  split
  · exact h
  · intro x hx
    rcases List.mem_append.mp hx with hx | hx
    · exact h x hx
    · rcases List.mem_singleton.mp hx with rfl
      exact he

/-- The voter documents after `cast_dual_ballot`: unchanged on failure,
rewritten through `markVoted` on success. -/
theorem cast_dual_ballot_voters_cases (enc : String → BallotData → String)
    (H : String → String) (drawsF drawsP : CastDraws) (st : DBState)
    (voter : VoterM) (election_id candidate_id party_id : String) (now : ℕ) :
    (cast_dual_ballot enc H drawsF drawsP st voter election_id candidate_id
      party_id now).2.2.voters = st.voters ∨
    (cast_dual_ballot enc H drawsF drawsP st voter election_id candidate_id
      party_id now).2.2.voters =
      st.voters.map (fun w =>
        if w.voterId == (markVoted voter election_id).voterId then
          markVoted voter election_id else w) := by
  unfold cast_dual_ballot
  cases hfe : findElection st election_id with
  | none => exact Or.inl rfl
  | some election =>
    simp only
    split
    · split <;> exact Or.inl rfl
    · split
      · exact Or.inl rfl
      · cases hgc : getCandidate election candidate_id with
        | none => exact Or.inl rfl
        | some candidate =>
          simp only
          split
          · exact Or.inl rfl
          · cases hgp : getParty election party_id with
            | none => exact Or.inl rfl
            | some party =>
              simp only
              cases hpk : election.publicKey with
              | none => exact Or.inl rfl
              | some public_key => exact Or.inr rfl

/-- The voter documents after `cast_dual_ballot_with_token`: unchanged on
failure, rewritten through `markVoted` on success. -/
theorem cast_with_token_voters_cases (enc : String → BallotData → String)
    (H : String → String) (draws : CastDraws) (st : DBState)
    (voter : VoterM) (election_id candidate_id party_id token_id : String)
    (now : ℕ) :
    (cast_dual_ballot_with_token enc H draws st voter election_id
      candidate_id party_id token_id now).2.2.2.voters = st.voters ∨
    (cast_dual_ballot_with_token enc H draws st voter election_id
      candidate_id party_id token_id now).2.2.2.voters =
      st.voters.map (fun w =>
        if w.voterId == (markVoted voter election_id).voterId then
          markVoted voter election_id else w) := by
  unfold cast_dual_ballot_with_token
  cases hfe : findElection st election_id with
  | none => exact Or.inl rfl
  | some election =>
    simp only
    split
    · split <;> exact Or.inl rfl
    · split
      · exact Or.inl rfl
      · rcases hvt : validate_token st token_id election_id none with ⟨bv, mv, tv⟩
        cases bv with
        | false => exact Or.inl rfl
        | true =>
          simp only
          rcases hvc : validate_token_constituency st token_id
            voter.constituency with ⟨bc, mc⟩
          cases bc with
          | false => exact Or.inl rfl
          | true =>
            simp only
            cases hgc : getCandidate election candidate_id with
            | none => exact Or.inl rfl
            | some candidate =>
              simp only
              split
              · exact Or.inl rfl
              · cases hgp : getParty election party_id with
                | none => exact Or.inl rfl
                | some party =>
                  simp only
                  cases hpk : election.publicKey with
                  | none => exact Or.inl rfl
                  | some public_key =>
                    simp only
                    rcases hu1 : use_token_for_ballot st token_id "fptp" now
                      with ⟨b1, m1, st1⟩
                    have hst1 := use_token_for_ballot_voters_votes st token_id
                      "fptp" now
                    rw [hu1] at hst1
                    dsimp only at hst1
                    cases b1 with
                    | false => exact Or.inl hst1.1
                    | true =>
                      simp only
                      rcases hu2 : use_token_for_ballot
                        ((cast_fptp_vote enc H draws st1 election_id
                          candidate_id voter.constituency public_key
                          (some token_id)
                          (some (generate_receipt H draws.genReceiptHex
                            election_id draws.nowStr)) (some now) now).2)
                        token_id "pr" now with ⟨b2, m2, st3⟩
                      have hst3 := use_token_for_ballot_voters_votes
                        ((cast_fptp_vote enc H draws st1 election_id
                          candidate_id voter.constituency public_key
                          (some token_id)
                          (some (generate_receipt H draws.genReceiptHex
                            election_id draws.nowStr)) (some now) now).2)
                        token_id "pr" now
                      rw [hu2] at hst3
                      dsimp only at hst3
                      cases b2 with
                      | false =>
                        refine Or.inl ?_
                        dsimp only
                        rw [hst3.1]
                        exact hst1.1
                      | true =>
                        refine Or.inr ?_
                        show (updateVoter _ _).voters = _
                        unfold updateVoter
                        simp only
                        have hv4 : (cast_pr_vote enc H draws st3 election_id
                            party_id public_key (some token_id)
                            (some (generate_receipt H draws.genReceiptHex
                              election_id draws.nowStr)) (some now) now).2.voters =
                            st3.voters := rfl
                        rw [hv4, hst3.1]
                        exact congrArg (List.map _) hst1.1

/-- **C9 (amended).** `issue_token` preserves the elector-set invariant
`elections_voted ⊆ token_issued_for` unconditionally; the two
ballot-casting operations extend `elections_voted` only by the election
being cast and so preserve the invariant *provided* that election is
already in the acting voter's `token_issued_for` — neither casting
operation checks this (`cast_dual_ballot` involves no token at all), so
the inclusion is not an invariant of the full system. -/
theorem elector_set_invariant_preservation
    (st : DBState) (voter : VoterM) (election_id : String) (now : ℕ)
    (newTokenId : String) (enc : String → BallotData → String)
    (H : String → String) (drawsF drawsP : CastDraws)
    (candidate_id party_id token_id : String) :
    ((∀ w ∈ st.voters, voterInv w) → voterInv voter →
      ∀ w ∈ (issue_token st voter election_id now newTokenId).2.2.2.voters,
        voterInv w) ∧
    ((∀ w ∈ st.voters, voterInv w) → voterInv voter →
      election_id ∈ voter.tokenIssuedFor →
      ∀ w ∈ (cast_dual_ballot enc H drawsF drawsP st voter election_id
        candidate_id party_id now).2.2.voters, voterInv w) ∧
    ((∀ w ∈ st.voters, voterInv w) → voterInv voter →
      election_id ∈ voter.tokenIssuedFor →
      ∀ w ∈ (cast_dual_ballot_with_token enc H drawsF st voter election_id
        candidate_id party_id token_id now).2.2.2.voters, voterInv w) := by
  refine ⟨?_, ?_, ?_⟩
  · intro hall hv
    unfold issue_token
    cases hfe : findElection st election_id with
    | none => exact hall
    | some election =>
      simp only
      split
      · split <;> exact hall
      · split
        · exact hall
        · split
          · exact hall
          · intro w hw
            unfold updateVoter at hw
            simp only at hw
            rcases List.mem_map.mp hw with ⟨w0, hw0, rfl⟩
            split
            · exact voterInv_markTokenIssued voter election_id hv
            · exact hall w0 hw0
  · intro hall hv htok w hw
    rcases cast_dual_ballot_voters_cases enc H drawsF drawsP st voter
      election_id candidate_id party_id now with hc | hc
    · rw [hc] at hw
      exact hall w hw
    · rw [hc] at hw
      rcases List.mem_map.mp hw with ⟨w0, hw0, rfl⟩
      split
      · exact voterInv_markVoted voter election_id hv htok
      · exact hall w0 hw0
  · intro hall hv htok w hw
    rcases cast_with_token_voters_cases enc H drawsF st voter
      election_id candidate_id party_id token_id now with hc | hc
    · rw [hc] at hw
      exact hall w hw
    · rw [hc] at hw
      rcases List.mem_map.mp hw with ⟨w0, hw0, rfl⟩
      split
      · exact voterInv_markVoted voter election_id hv htok
      · exact hall w0 hw0

/-- Witness for C9 (amended): a concrete `issue_token` call on voters
satisfying the invariant keeps it. -/
theorem elector_set_invariant_preservation_witness :
    ∀ w ∈ (issue_token
        ⟨[⟨"E1", "n", "d", [], [], 1, 0, 10, true, some "pk", none⟩],
         [⟨"V1", "c", "p", "f", "Kathmandu", 0, [], []⟩], [], []⟩
        ⟨"V1", "c", "p", "f", "Kathmandu", 0, [], []⟩
        "E1" 5 "TK1").2.2.2.voters, voterInv w :=
  (elector_set_invariant_preservation
    ⟨[⟨"E1", "n", "d", [], [], 1, 0, 10, true, some "pk", none⟩],
     [⟨"V1", "c", "p", "f", "Kathmandu", 0, [], []⟩], [], []⟩
    ⟨"V1", "c", "p", "f", "Kathmandu", 0, [], []⟩ "E1" 5 "TK1"
    (fun _ _ => "ct") (fun _ => "h") ⟨"T0", "RH", "TS"⟩ ⟨"T1", "RH2", "TS"⟩
    "C1" "P1" "TK9").1 (by decide) (by decide)

/-- Counterexample to C9 as stated: `cast_dual_ballot` (a public
operation, and one that involves no token) succeeds for a voter who was
never issued a token for the election, leaving a reachable state whose
voter record has `elections_voted = ["E1"]` but `token_issued_for = []`,
so `voted_in ⊆ token_issued_for` fails. -/
theorem elector_set_invariant_broken_by_cast_dual_ballot :
    (cast_dual_ballot (fun _ _ => "ct") (fun _ => "h")
        ⟨"T0", "RH", "TS"⟩ ⟨"T1", "RH2", "TS"⟩
        ⟨[⟨"E1", "n", "d", [⟨"C1", "cn", "p", "Kathmandu"⟩], [⟨"P1", "pn"⟩],
           1, 0, 10, true, some "pk", none⟩],
         [⟨"V1", "c", "p", "f", "Kathmandu", 0, [], []⟩], [], []⟩
        ⟨"V1", "c", "p", "f", "Kathmandu", 0, [], []⟩
        "E1" "C1" "P1" 5).1 = true ∧
    (cast_dual_ballot (fun _ _ => "ct") (fun _ => "h")
        ⟨"T0", "RH", "TS"⟩ ⟨"T1", "RH2", "TS"⟩
        ⟨[⟨"E1", "n", "d", [⟨"C1", "cn", "p", "Kathmandu"⟩], [⟨"P1", "pn"⟩],
           1, 0, 10, true, some "pk", none⟩],
         [⟨"V1", "c", "p", "f", "Kathmandu", 0, [], []⟩], [], []⟩
        ⟨"V1", "c", "p", "f", "Kathmandu", 0, [], []⟩
        "E1" "C1" "P1" 5).2.2.voters =
      [⟨"V1", "c", "p", "f", "Kathmandu", 0, ["E1"], []⟩] ∧
    ¬ voterInv ⟨"V1", "c", "p", "f", "Kathmandu", 0, ["E1"], []⟩ := by
  decide

/-! ## C5 — audit chain integrity and tamper localisation -/

/-- `chainTail` over a cons restarts from the head's hash. -/
theorem chainTail_cons (exp : String) (a : AuditEntryM) (l : List AuditEntryM) :
    chainTail exp (a :: l) = chainTail a.entry_hash l := by
  cases l with
  | nil => rfl
  | cons b t =>
    unfold chainTail
    rw [List.getLast?_cons_cons]
    cases hx : (b :: t).getLast? with
    | none => exact absurd hx (by simp)
    | some e => rfl

/-- `_get_latest_hash` agrees with `chainTail` from the genesis hash. -/
theorem getLatestHash_eq_chainTail (l : List AuditEntryM) :
    getLatestHash l = chainTail GENESIS_HASH l := by
  cases h : l.getLast? <;> simp [getLatestHash, chainTail, h]

/-- Appending an entry whose `previous_hash` is the chain tail and whose
stored hash recomputes keeps the walk fully valid. -/
theorem verifyFrom_append_ok (H : AuditHashInput → String) (l : List AuditEntryM)
    (exp : String) (k : ℕ) (e : AuditEntryM)
    (hvalid : verifyFrom H exp k l = ⟨true, k + l.length, none, none⟩)
    (hprev : e.previous_hash = some (chainTail exp l))
    (hhash : computeHash H e = e.entry_hash) :
    verifyFrom H exp k (l ++ [e]) = ⟨true, k + l.length + 1, none, none⟩ := by
  induction l generalizing exp k with
  | nil =>
    simp only [List.nil_append, verifyFrom]
    rw [if_neg (by simp [hprev, chainTail]), if_neg (by simp [hhash])]
    simp [verifyFrom]
  | cons a rest ih =>
    rw [List.cons_append]
    unfold verifyFrom at hvalid ⊢
    by_cases h1 : a.previous_hash ≠ some exp
    · rw [if_pos h1] at hvalid
      exact absurd (congrArg ChainVerifyResult.valid hvalid) (by simp)
    · rw [if_neg h1] at hvalid ⊢
      by_cases h2 : computeHash H a ≠ a.entry_hash
      · rw [if_pos h2] at hvalid
        exact absurd (congrArg ChainVerifyResult.valid hvalid) (by simp)
      · rw [if_neg h2] at hvalid ⊢
        have heq : k + (a :: rest).length = (k + 1) + rest.length := by
          simp [List.length_cons]
          omega
        rw [heq] at hvalid
        have := ih a.entry_hash (k + 1) hvalid
          (by rwa [chainTail_cons] at hprev)
        rw [this]
        refine congrArg (fun n => ChainVerifyResult.mk true n none none) ?_
        simp [List.length_cons]
        omega

/-- Each `AuditLog.save` appends one entry. -/
theorem buildChain_length (H : AuditHashInput → String) (ps : List PendingAudit) :
    (buildChain H ps).length = ps.length := by
  have key : ∀ (ps : List PendingAudit) (chain : List AuditEntryM),
      (ps.foldl (saveAudit H) chain).length = chain.length + ps.length := by
    intro ps
    induction ps with
    | nil => intro chain; simp
    | cons p rest ih =>
      intro chain
      rw [List.foldl_cons, ih]
      simp [saveAudit]
      omega
  simpa using key ps []

/-- A chain built by consecutive saves verifies as fully valid. -/
theorem buildChain_verifies (H : AuditHashInput → String)
    (ps : List PendingAudit) :
    verify_chain H (buildChain H ps) =
      ⟨true, (buildChain H ps).length, none, none⟩ := by
  have key : ∀ (ps : List PendingAudit) (chain : List AuditEntryM),
      verifyFrom H GENESIS_HASH 0 chain = ⟨true, chain.length, none, none⟩ →
      verifyFrom H GENESIS_HASH 0 (ps.foldl (saveAudit H) chain) =
        ⟨true, (ps.foldl (saveAudit H) chain).length, none, none⟩ := by
    intro ps
    induction ps with
    | nil => intro chain h; simpa using h
    | cons p rest ih =>
      intro chain h
      rw [List.foldl_cons]
      refine ih (saveAudit H chain p) ?_
      obtain ⟨e, he, hprev, hhash⟩ : ∃ e, saveAudit H chain p = chain ++ [e] ∧
          e.previous_hash = some (chainTail GENESIS_HASH chain) ∧
          computeHash H e = e.entry_hash := by
        refine ⟨_, rfl, ?_, rfl⟩
        show some (getLatestHash chain) = some (chainTail GENESIS_HASH chain)
        rw [getLatestHash_eq_chainTail]
      rw [he]
      have happ := verifyFrom_append_ok H chain GENESIS_HASH 0 e
        (by simpa using h) hprev hhash
      rw [happ]
      simp
  have := key ps [] (by simp [verifyFrom])
  unfold verify_chain buildChain
  rw [this]

/-- In a fully valid walk, every entry's stored `entry_hash` recomputes
and its `previous_hash` is exactly the expectation at its position. -/
theorem verifyFrom_valid_entry_facts (H : AuditHashInput → String)
    (l : List AuditEntryM) (exp : String) (k : ℕ)
    (h : (verifyFrom H exp k l).valid = true) :
    ∀ (i : ℕ) (hi : i < l.length),
      computeHash H (l.get ⟨i, hi⟩) = (l.get ⟨i, hi⟩).entry_hash ∧
      (l.get ⟨i, hi⟩).previous_hash = some (chainTail exp (l.take i)) := by
  induction l generalizing exp k with
  | nil => intro i hi; exact absurd hi (by simp)
  | cons a rest ih =>
    intro i hi
    unfold verifyFrom at h
    by_cases h1 : a.previous_hash ≠ some exp
    · rw [if_pos h1] at h
      exact absurd h (by simp)
    · rw [if_neg h1] at h
      by_cases h2 : computeHash H a ≠ a.entry_hash
      · rw [if_pos h2] at h
        exact absurd h (by simp)
      · rw [if_neg h2] at h
        push_neg at h1 h2
        cases i with
        | zero => exact ⟨h2, by simpa [chainTail] using h1⟩
        | succ j =>
          have hj : j < rest.length := by
            simpa [List.length_cons] using hi
          have := ih a.entry_hash (k + 1) h j hj
          refine ⟨this.1, ?_⟩
          rw [List.get_cons_succ, this.2]
          rw [List.take_succ_cons, chainTail_cons]

/-- Replacing a single entry of a valid chain with one whose
`previous_hash` link or recomputed hash is broken makes the walk stop
exactly there. -/
theorem verifyFrom_set_localises (H : AuditHashInput → String)
    (l : List AuditEntryM) (exp : String) (k : ℕ)
    (hvalid : (verifyFrom H exp k l).valid = true)
    (i : ℕ) (hi : i < l.length) (e' : AuditEntryM)
    (hbad : e'.previous_hash ≠ (l.get ⟨i, hi⟩).previous_hash ∨
            (e'.previous_hash = (l.get ⟨i, hi⟩).previous_hash ∧
             computeHash H e' ≠ e'.entry_hash)) :
    (verifyFrom H exp k (l.set i e')).valid = false ∧
    (verifyFrom H exp k (l.set i e')).first_invalid_id = some e'.eid ∧
    (verifyFrom H exp k (l.set i e')).entries_checked = k + i + 1 := by
  induction l generalizing exp k i with
  | nil => exact absurd hi (by simp)
  | cons a rest ih =>
    unfold verifyFrom at hvalid
    by_cases h1 : a.previous_hash ≠ some exp
    · rw [if_pos h1] at hvalid
      exact absurd hvalid (by simp)
    · rw [if_neg h1] at hvalid
      by_cases h2 : computeHash H a ≠ a.entry_hash
      · rw [if_pos h2] at hvalid
        exact absurd hvalid (by simp)
      · rw [if_neg h2] at hvalid
        push_neg at h1
        cases i with
        | zero =>
          rw [List.set_cons_zero]
          have hprev0 : ((a :: rest).get ⟨0, hi⟩).previous_hash = some exp := h1
          unfold verifyFrom
          rcases hbad with hb | ⟨hbp, hbh⟩
          · rw [if_pos (by rw [hprev0] at hb; exact hb)]
            exact ⟨rfl, rfl, rfl⟩
          · rw [if_neg (by rw [hprev0] at hbp; simp [hbp]), if_pos hbh]
            exact ⟨rfl, rfl, rfl⟩
        | succ j =>
          have hj : j < rest.length := by
            simpa [List.length_cons] using hi
          rw [List.set_cons_succ]
          unfold verifyFrom
          rw [if_neg (by simp [h1]), if_neg h2]
          have := ih a.entry_hash (k + 1) hvalid j hj
            (by simpa [List.get_cons_succ] using hbad)
          exact ⟨this.1, this.2.1, by rw [this.2.2]; omega⟩

/-- **C5 (amended).** After any sequence of N entries appended via
`AuditLog.save` (each taking `previous_hash` from the latest entry, or
`"GENESIS"` when the log is empty), `verify_chain` returns valid with N
entries checked.  Corrupting any single entry i so that its
`previous_hash` link breaks, or so that its recomputed hash no longer
matches its stored `entry_hash` — which, absent a SHA-256 collision, is
what corrupting `entry_hash` itself or any hashed field (`category`,
`event_type`, `message`, `user_id`, `user_type`, `ip_address`,
`user_agent`, `details`, or the timestamp *at second precision*) does —
makes `verify_chain` return invalid with `first_invalid_id` equal to
entry i and i+1 entries checked.  Sub-second timestamp corruption leaves
the hash input unchanged and is not detected (see the counterexample),
so the original claim's unconditional "timestamp" case fails. -/
theorem audit_chain_append_valid_and_tamper_localised
    (H : AuditHashInput → String) (ps : List PendingAudit) :
    (verify_chain H (buildChain H ps) = ⟨true, ps.length, none, none⟩) ∧
    (∀ (i : ℕ) (hi : i < (buildChain H ps).length) (e' : AuditEntryM),
      (e'.previous_hash ≠ ((buildChain H ps).get ⟨i, hi⟩).previous_hash ∨
       (e'.previous_hash = ((buildChain H ps).get ⟨i, hi⟩).previous_hash ∧
        computeHash H e' ≠ e'.entry_hash)) →
      (verify_chain H ((buildChain H ps).set i e')).valid = false ∧
      (verify_chain H ((buildChain H ps).set i e')).first_invalid_id =
        some e'.eid ∧
      (verify_chain H ((buildChain H ps).set i e')).entries_checked = i + 1) ∧
    (∀ (i : ℕ) (hi : i < (buildChain H ps).length) (e' : AuditEntryM),
      e'.entry_hash = ((buildChain H ps).get ⟨i, hi⟩).entry_hash →
      e'.previous_hash = ((buildChain H ps).get ⟨i, hi⟩).previous_hash →
      H (auditHashInput e') ≠ H (auditHashInput ((buildChain H ps).get ⟨i, hi⟩)) →
      (verify_chain H ((buildChain H ps).set i e')).valid = false ∧
      (verify_chain H ((buildChain H ps).set i e')).first_invalid_id =
        some e'.eid ∧
      (verify_chain H ((buildChain H ps).set i e')).entries_checked = i + 1) := by
  have hvalid0 : verify_chain H (buildChain H ps) =
      ⟨true, (buildChain H ps).length, none, none⟩ := buildChain_verifies H ps
  have hvalidb : (verifyFrom H GENESIS_HASH 0 (buildChain H ps)).valid = true := by
    have := congrArg ChainVerifyResult.valid hvalid0
    simpa [verify_chain] using this
  refine ⟨by rw [hvalid0, buildChain_length], ?_, ?_⟩
  · intro i hi e' hbad
    have := verifyFrom_set_localises H (buildChain H ps) GENESIS_HASH 0
      hvalidb i hi e' hbad
    exact ⟨this.1, this.2.1, by rw [show verify_chain H ((buildChain H ps).set i e') = verifyFrom H GENESIS_HASH 0 ((buildChain H ps).set i e') from rfl, this.2.2]; omega⟩
  · intro i hi e' hhash hprev hne
    have hfacts := verifyFrom_valid_entry_facts H (buildChain H ps)
      GENESIS_HASH 0 hvalidb i hi
    have hbad : e'.previous_hash ≠ ((buildChain H ps).get ⟨i, hi⟩).previous_hash ∨
        (e'.previous_hash = ((buildChain H ps).get ⟨i, hi⟩).previous_hash ∧
         computeHash H e' ≠ e'.entry_hash) := by
      refine Or.inr ⟨hprev, ?_⟩
      rw [hhash, ← hfacts.1]
      exact hne
    have := verifyFrom_set_localises H (buildChain H ps) GENESIS_HASH 0
      hvalidb i hi e' hbad
    exact ⟨this.1, this.2.1, by rw [show verify_chain H ((buildChain H ps).set i e') = verifyFrom H GENESIS_HASH 0 ((buildChain H ps).set i e') from rfl, this.2.2]; omega⟩

/-- Witness for C5 (amended): in a concrete two-entry chain, corrupting
the `message` of entry 0 (under the concrete collision-free encoder)
makes `verify_chain` invalid exactly at that entry. -/
theorem audit_chain_append_valid_and_tamper_localised_witness :
    (verify_chain encodeAuditInput
      ((buildChain encodeAuditInput
        [⟨"authentication", "login_success", "m1", none, none, none, none,
          "d1", some ⟨"2024-01-01T00:00:00", 123⟩⟩,
         ⟨"voting", "vote_cast", "m2", none, none, none, none,
          "d2", some ⟨"2024-01-01T00:00:01", 42⟩⟩]).set 0
        { (buildChain encodeAuditInput
            [⟨"authentication", "login_success", "m1", none, none, none, none,
              "d1", some ⟨"2024-01-01T00:00:00", 123⟩⟩,
             ⟨"voting", "vote_cast", "m2", none, none, none, none,
              "d2", some ⟨"2024-01-01T00:00:01", 42⟩⟩]).get ⟨0, by decide⟩
          with message := "evil" })).valid = false ∧
    (verify_chain encodeAuditInput
      ((buildChain encodeAuditInput
        [⟨"authentication", "login_success", "m1", none, none, none, none,
          "d1", some ⟨"2024-01-01T00:00:00", 123⟩⟩,
         ⟨"voting", "vote_cast", "m2", none, none, none, none,
          "d2", some ⟨"2024-01-01T00:00:01", 42⟩⟩]).set 0
        { (buildChain encodeAuditInput
            [⟨"authentication", "login_success", "m1", none, none, none, none,
              "d1", some ⟨"2024-01-01T00:00:00", 123⟩⟩,
             ⟨"voting", "vote_cast", "m2", none, none, none, none,
              "d2", some ⟨"2024-01-01T00:00:01", 42⟩⟩]).get ⟨0, by decide⟩
          with message := "evil" })).first_invalid_id =
      some ({ (buildChain encodeAuditInput
            [⟨"authentication", "login_success", "m1", none, none, none, none,
              "d1", some ⟨"2024-01-01T00:00:00", 123⟩⟩,
             ⟨"voting", "vote_cast", "m2", none, none, none, none,
              "d2", some ⟨"2024-01-01T00:00:01", 42⟩⟩]).get ⟨0, by decide⟩
          with message := "evil" } : AuditEntryM).eid ∧
    (verify_chain encodeAuditInput
      ((buildChain encodeAuditInput
        [⟨"authentication", "login_success", "m1", none, none, none, none,
          "d1", some ⟨"2024-01-01T00:00:00", 123⟩⟩,
         ⟨"voting", "vote_cast", "m2", none, none, none, none,
          "d2", some ⟨"2024-01-01T00:00:01", 42⟩⟩]).set 0
        { (buildChain encodeAuditInput
            [⟨"authentication", "login_success", "m1", none, none, none, none,
              "d1", some ⟨"2024-01-01T00:00:00", 123⟩⟩,
             ⟨"voting", "vote_cast", "m2", none, none, none, none,
              "d2", some ⟨"2024-01-01T00:00:01", 42⟩⟩]).get ⟨0, by decide⟩
          with message := "evil" })).entries_checked = 0 + 1 :=
  (audit_chain_append_valid_and_tamper_localised encodeAuditInput
    [⟨"authentication", "login_success", "m1", none, none, none, none,
      "d1", some ⟨"2024-01-01T00:00:00", 123⟩⟩,
     ⟨"voting", "vote_cast", "m2", none, none, none, none,
      "d2", some ⟨"2024-01-01T00:00:01", 42⟩⟩]).2.2 0 (by decide)
    { (buildChain encodeAuditInput
        [⟨"authentication", "login_success", "m1", none, none, none, none,
          "d1", some ⟨"2024-01-01T00:00:00", 123⟩⟩,
         ⟨"voting", "vote_cast", "m2", none, none, none, none,
          "d2", some ⟨"2024-01-01T00:00:01", 42⟩⟩]).get ⟨0, by decide⟩
      with message := "evil" } rfl rfl (by decide)

/-- Counterexample to C5 as stated: corrupting the `timestamp` field of
the only entry of a freshly built chain — changing its microseconds but
not its second-precision rendering — changes the stored document yet
`verify_chain` still reports the chain as fully valid, because
`_compute_hash` normalises the timestamp to second precision. -/
theorem audit_timestamp_microsecond_corruption_undetected :
    ((buildChain encodeAuditInput
        [⟨"authentication", "login_success", "m1", none, none, none, none,
          "d1", some ⟨"2024-01-01T00:00:00", 123⟩⟩]).set 0
      { (buildChain encodeAuditInput
          [⟨"authentication", "login_success", "m1", none, none, none, none,
            "d1", some ⟨"2024-01-01T00:00:00", 123⟩⟩]).get ⟨0, by decide⟩
        with timestamp := some ⟨"2024-01-01T00:00:00", 500⟩ } ≠
      buildChain encodeAuditInput
        [⟨"authentication", "login_success", "m1", none, none, none, none,
          "d1", some ⟨"2024-01-01T00:00:00", 123⟩⟩]) ∧
    verify_chain encodeAuditInput
      ((buildChain encodeAuditInput
        [⟨"authentication", "login_success", "m1", none, none, none, none,
          "d1", some ⟨"2024-01-01T00:00:00", 123⟩⟩]).set 0
        { (buildChain encodeAuditInput
            [⟨"authentication", "login_success", "m1", none, none, none, none,
              "d1", some ⟨"2024-01-01T00:00:00", 123⟩⟩]).get ⟨0, by decide⟩
          with timestamp := some ⟨"2024-01-01T00:00:00", 500⟩ }) =
      ⟨true, 1, none, none⟩ := by
  constructor
  · decide
  · decide

/-! ## C6 — receipt verification -/

/-- **C6 (amended).** After a successful dual-ballot cast — two records
sharing a fresh `receipt_id`, each storing the same
`SHA-256(receipt_id:election_id:ts_string)` — `verify_receipt` reports
valid.  The integrity check recomputes the hash of the *first* matching
record only: whenever that primary record's stored `receipt_hash` no
longer matches the hash recomputed from its stored `receipt_id`,
`election_id` and `timestamp_str` (which, absent a SHA-256 collision, is
what mutating its `election_id` or `timestamp_str` does),
`verify_receipt` fails with the receipt-integrity error.  Mutations on
the other records sharing the receipt are not checked (see the
counterexample), and mutating the primary's `receipt_id` removes it from
the match set instead of failing the check. -/
theorem receipt_valid_after_cast_and_primary_tamper_detected
    (H : String → String) (prior : List ReceiptVoteDoc)
    (rid eid ts f1 f2 : String)
    (hfresh : ∀ v ∈ prior, v.receiptId ≠ some rid) :
    (verify_receipt H (prior ++
      [⟨some rid, eid, some ts, some (H (receiptHashInput rid eid ts)), "fptp", f1⟩,
       ⟨some rid, eid, some ts, some (H (receiptHashInput rid eid ts)), "pr", f2⟩])
      rid = ⟨true, "Your votes were successfully recorded."⟩) ∧
    (∀ (votes : List ReceiptVoteDoc) (primary : ReceiptVoteDoc)
       (rest : List ReceiptVoteDoc) (ts' : String),
      findByReceiptId votes rid = primary :: rest →
      primary.timestampStr = some ts' →
      primary.receiptHash ≠
        some (H (receiptHashInput (primary.receiptId.getD "")
          primary.electionId ts')) →
      verify_receipt H votes rid = ⟨false, "Receipt integrity check failed."⟩) := by
  constructor
  · unfold verify_receipt findByReceiptId
    rw [List.filter_append]
    have hnil : prior.filter (fun v => v.receiptId == some rid) = [] := by
      rw [List.filter_eq_nil_iff]
      intro v hv
      simpa using hfresh v hv
    rw [hnil]
    simp only [List.nil_append, List.filter]
    have : ((some rid : Option String) == some rid) = true := by simp
    rw [this]
    simp only
    rw [if_neg (by simp)]
  · intro votes primary rest ts' hfind hts hne
    unfold verify_receipt
    rw [hfind]
    dsimp only
    rw [hts]
    simp only
    rw [if_pos hne]

/-- Witness for C6 (amended): a concrete fresh dual cast verifies valid,
and mutating the primary record's `timestamp_str` flips verification to
the receipt-integrity failure. -/
theorem receipt_valid_after_cast_and_primary_tamper_detected_witness :
    (verify_receipt (fun s => "#" ++ s) ([] ++
      [⟨some "RCP-X", "E1", some "TS",
        some ((fun s => "#" ++ s) (receiptHashInput "RCP-X" "E1" "TS")), "fptp", "F"⟩,
       ⟨some "RCP-X", "E1", some "TS",
        some ((fun s => "#" ++ s) (receiptHashInput "RCP-X" "E1" "TS")), "pr", "G"⟩])
      "RCP-X" = ⟨true, "Your votes were successfully recorded."⟩) ∧
    verify_receipt (fun s => "#" ++ s)
      [⟨some "RCP-X", "E1", some "EVIL", some "#RCP-X:E1:TS", "fptp", "F"⟩,
       ⟨some "RCP-X", "E1", some "TS", some "#RCP-X:E1:TS", "pr", "G"⟩]
      "RCP-X" = ⟨false, "Receipt integrity check failed."⟩ :=
  ⟨(receipt_valid_after_cast_and_primary_tamper_detected (fun s => "#" ++ s)
      [] "RCP-X" "E1" "TS" "F" "G" (by decide)).1,
   (receipt_valid_after_cast_and_primary_tamper_detected (fun s => "#" ++ s)
      [] "RCP-X" "E1" "TS" "F" "G" (by decide)).2
     [⟨some "RCP-X", "E1", some "EVIL", some "#RCP-X:E1:TS", "fptp", "F"⟩,
      ⟨some "RCP-X", "E1", some "TS", some "#RCP-X:E1:TS", "pr", "G"⟩]
     ⟨some "RCP-X", "E1", some "EVIL", some "#RCP-X:E1:TS", "fptp", "F"⟩
     [⟨some "RCP-X", "E1", some "TS", some "#RCP-X:E1:TS", "pr", "G"⟩]
     "EVIL" (by decide) (by decide) (by decide)⟩

/-- Counterexample to C6 as stated: two records share the receipt id;
the *second* one's stored `timestamp_str` is mutated (it differs from
its honest value "TS"), yet `verify_receipt` still reports valid,
because only the first matching record is checked. -/
theorem receipt_mutation_on_second_record_undetected :
    verify_receipt (fun s => "#" ++ s)
      [⟨some "RCP-X", "E1", some "TS", some "#RCP-X:E1:TS", "fptp", "F"⟩,
       ⟨some "RCP-X", "E1", some "EVIL", some "#RCP-X:E1:TS", "pr", "G"⟩]
      "RCP-X" = ⟨true, "Your votes were successfully recorded."⟩ ∧
    (⟨some "RCP-X", "E1", some "EVIL", some "#RCP-X:E1:TS", "pr", "G"⟩ :
        ReceiptVoteDoc) ≠
      ⟨some "RCP-X", "E1", some "TS", some "#RCP-X:E1:TS", "pr", "G"⟩ := by
  constructor
  · decide
  · decide

/-! ## C8 — `reconstruct_secret` takes the first `t` shares verbatim -/

/-- **C8 (amended).** `reconstruct_secret` depends only on the first
`threshold` shares of its input, taken verbatim — there is no
deduplication by index (`shares = shares[:self.threshold]` is the entire
selection step). -/
theorem reconstruct_uses_first_threshold_shares (threshold : ℕ)
    (shares : List (ℕ × List ℕ)) (secret_length : ℕ) :
    reconstruct_secret threshold shares secret_length =
      reconstruct_secret threshold (shares.take threshold) secret_length := by
  unfold reconstruct_secret
  by_cases h : shares.length < threshold
  · rw [if_pos h, if_pos (by simp [List.length_take]; omega)]
  · rw [if_neg h, if_neg (by simp [List.length_take]; omega), List.take_take,
      min_self]

set_option maxRecDepth 1000000 in
/-- Counterexample to C8 as stated: the secret `[1]` is split with
`t = 2, n = 2` (tail coefficient 1), giving shares `(1, hex 2)` and
`(2, hex 3)`.  Reconstruction from a share list whose first two entries
repeat index 1 but which contains two distinct-index shares overall
returns the zero byte-string, not the secret: duplicated indices are
*not* deduplicated (the duplicate point makes the code invert 0, and
`_mod_inverse` silently returns 0 for a zero denominator). -/
theorem reconstruct_duplicate_index_returns_wrong_secret :
    split_secret 2 [1] [1] =
      some [(1, natToBE 16 primeHexWidth 2), (2, natToBE 16 primeHexWidth 3)] ∧
    reconstruct_secret 2
      [(1, natToBE 16 primeHexWidth 2), (1, natToBE 16 primeHexWidth 2),
       (2, natToBE 16 primeHexWidth 3)] 1 = some [0] ∧
    (some [0] : Option (List ℕ)) ≠ some [1] := by
  refine ⟨?_, ?_, by decide⟩
  · decide
  · decide

/-! ## C1 — Shamir round-trip

The development below shows that `reconstruct_secret` applied to any `t`
of the `n` shares of `split_secret` returns the secret byte string.  It
needs: primality of `PRIME` (Lucas-Lehmer), correctness of the
extended-Euclid inverse, the digit-list round trips, and the bridge from
the `% PRIME` integer loops to field sums in `ZMod PRIME`, where
Mathlib's Lagrange interpolation finishes the argument. -/

/-- `PRIME = 2^521 − 1` is prime (Lucas-Lehmer certificate, checked by
kernel reduction). -/
theorem prime_PRIME : Nat.Prime PRIME :=
  lucas_lehmer_sufficiency 521 (by norm_num) (by norm_num)

instance : Fact (Nat.Prime PRIME) := ⟨prime_PRIME⟩

/-- `PRIME` is large; in particular every share index (at most 20) is
below it. -/
theorem twenty_lt_PRIME : 20 < PRIME := by
  have h : (2 : ℕ) ^ 5 ≤ 2 ^ 521 := Nat.pow_le_pow_right (by norm_num) (by norm_num)
  have h32 : (2 : ℕ) ^ 5 = 32 := by norm_num
  unfold PRIME
  omega

/-- `PRIME` is positive. -/
theorem PRIME_pos : 0 < PRIME := by
  have := twenty_lt_PRIME
  omega

/-- Correctness of the fueled extended Euclid: with enough fuel it
returns the gcd together with Bézout coefficients. -/
theorem egcdFuel_spec : ∀ (f a b : ℕ), a ≤ f →
    (egcdFuel f a b).1 = Nat.gcd a b ∧
    (a : ℤ) * (egcdFuel f a b).2.1 + (b : ℤ) * (egcdFuel f a b).2.2 =
      ((egcdFuel f a b).1 : ℤ) := by
  intro f
  induction f with
  | zero =>
    intro a b ha
    interval_cases a
    simp only [egcdFuel]
    exact ⟨(Nat.gcd_zero_left b).symm, by push_cast; ring⟩
  | succ f ih =>
    intro a b ha
    cases a with
    | zero =>
      simp only [egcdFuel]
      exact ⟨(Nat.gcd_zero_left b).symm, by push_cast; ring⟩
    | succ a =>
      simp only [egcdFuel]
      have hrec : b % (a + 1) ≤ f := by
        have h1 : b % (a + 1) < a + 1 := Nat.mod_lt _ (Nat.succ_pos a)
        omega
      have hih := ih (b % (a + 1)) (a + 1) hrec
      constructor
      · rw [hih.1]
        exact (Nat.gcd_rec (a + 1) b).symm
      · have hb : (b : ℤ) =
            ((a : ℤ) + 1) * ((b / (a + 1) : ℕ) : ℤ) + ((b % (a + 1) : ℕ) : ℤ) := by
          exact_mod_cast (Nat.div_add_mod b (a + 1)).symm
        have hbez := hih.2
        push_cast at hbez hb ⊢
        linear_combination hbez + (egcdFuel f (b % (a + 1)) (a + 1)).2.1 * hb

/-- `_mod_inverse` computes the field inverse in `ZMod PRIME` for any
integer that is nonzero mod `PRIME`. -/
theorem mod_inverse_cast (a : ℤ) (ha : (a : ZMod PRIME) ≠ 0) :
    ((mod_inverse a PRIME : ℤ) : ZMod PRIME) = (a : ZMod PRIME)⁻¹ := by
  have hp : (PRIME : ℤ) ≠ 0 := by
    exact_mod_cast PRIME_pos.ne'
  set a' : ℕ := (a % (PRIME : ℤ)).toNat with ha'
  have ha'cast : (a' : ℤ) = a % (PRIME : ℤ) :=
    Int.toNat_of_nonneg (Int.emod_nonneg a hp)
  have hcast : ((a' : ℕ) : ZMod PRIME) = (a : ZMod PRIME) := by
    have h1 : ((a' : ℤ) : ZMod PRIME) = (a : ZMod PRIME) := by
      rw [ha'cast, ZMod.intCast_mod]
    rwa [Int.cast_natCast] at h1
  have ha'ne : ¬ PRIME ∣ a' := by
    intro hdvd
    exact ha (hcast ▸ (ZMod.natCast_zmod_eq_zero_iff_dvd a' PRIME).mpr hdvd)
  have hcop : Nat.gcd a' PRIME = 1 := by
    have := (Nat.Prime.coprime_iff_not_dvd prime_PRIME).mpr ha'ne
    exact Nat.Coprime.gcd_eq_one (Nat.Coprime.symm this)
  have hspec := egcdFuel_spec a' a' PRIME le_rfl
  have hbez := hspec.2
  rw [hspec.1, hcop] at hbez
  have hone : ((a' : ℕ) : ZMod PRIME) * ((extended_gcd a' PRIME).2.1 : ZMod PRIME)
      = 1 := by
    have := congrArg (fun z : ℤ => (z : ZMod PRIME)) hbez
    push_cast at this
    rwa [ZMod.natCast_self, zero_mul, add_zero] at this
  have hinv : (((extended_gcd a' PRIME).2.1 : ℤ) : ZMod PRIME) =
      (a : ZMod PRIME)⁻¹ := by
    rw [← hcast]
    exact eq_inv_of_mul_eq_one_left (by rw [mul_comm]; exact hone)
  show (((extended_gcd a' PRIME).2.1 % (PRIME : ℤ) + (PRIME : ℤ)) %
      (PRIME : ℤ) : ℤ) = (a : ZMod PRIME)⁻¹
  rw [ZMod.intCast_mod]
  push_cast
  rw [ZMod.natCast_self, add_zero]
  exact hinv

/-- With enough fuel, `digitsLE` computes `Nat.digits`. -/
theorem digitsLE_eq_digits (base : ℕ) (hbase : 2 ≤ base) :
    ∀ (f v : ℕ), v ≤ f → digitsLE base f v = Nat.digits base v := by
  intro f
  induction f with
  | zero =>
    intro v hv
    interval_cases v
    simp [digitsLE]
  | succ f ih =>
    intro v hv
    cases v with
    | zero => simp [digitsLE]
    | succ w =>
      show ((w + 1) % base) :: digitsLE base f ((w + 1) / base) = _
      have hdiv : (w + 1) / base ≤ f := by
        have hlt : (w + 1) / base < w + 1 := Nat.div_lt_self (by omega) (by omega)
        omega
      rw [ih _ hdiv, Nat.digits_def' (by omega : 1 < base) (Nat.succ_pos w)]

/-- `ofDigits` of a zero block is zero. -/
theorem ofDigits_replicate_zero (b k : ℕ) :
    Nat.ofDigits b (List.replicate k 0) = 0 := by
  induction k with
  | zero => rfl
  | succ k ih => simp [List.replicate_succ, Nat.ofDigits_cons, ih]

/-- Decoding a zero-padded big-endian rendering recovers the value
(for any pad width). -/
theorem ofDigits_reverse_natToBE (base len v : ℕ) (hbase : 2 ≤ base) :
    Nat.ofDigits base (natToBE base len v).reverse = v := by
  unfold natToBE
  rw [digitsLE_eq_digits base hbase v v le_rfl]
  rw [List.reverse_append, List.reverse_reverse, List.reverse_replicate]
  rw [Nat.ofDigits_append, Nat.ofDigits_digits, ofDigits_replicate_zero]
  simp

/-- `int(hex, 16)` of a share value rendered by `split_secret`. -/
theorem hexToInt_natToBE (len v : ℕ) :
    hexToInt (natToBE 16 len v) = v :=
  ofDigits_reverse_natToBE 16 len v (by norm_num)

/-- A digit list below the base decodes below `base ^ length`. -/
theorem ofDigits_lt_base_pow (base : ℕ) (hbase : 2 ≤ base) :
    ∀ (l : List ℕ), (∀ d ∈ l, d < base) →
      Nat.ofDigits base l < base ^ l.length := by
  intro l
  induction l with
  | nil =>
    intro _
    simp [Nat.ofDigits_nil]
  | cons d tl ih =>
    intro hd
    have h1 : Nat.ofDigits base tl < base ^ tl.length :=
      ih (fun x hx => hd x (List.mem_cons_of_mem _ hx))
    have h2 : d < base := hd d (List.mem_cons_self _ _)
    rw [Nat.ofDigits_cons, List.length_cons, pow_succ]
    have hkey : base * (Nat.ofDigits base tl + 1) ≤ base * base ^ tl.length :=
      Nat.mul_le_mul_left base (by omega)
    calc d + base * Nat.ofDigits base tl
        < base + base * Nat.ofDigits base tl := by omega
      _ = base * (Nat.ofDigits base tl + 1) := by ring
      _ ≤ base * base ^ tl.length := hkey
      _ = base ^ tl.length * base := Nat.mul_comm _ _

/-- A byte string decodes below `256 ^ length`. -/
theorem bytesToInt_lt (s : List ℕ) (h : ∀ b ∈ s, b < 256) :
    bytesToInt s < 256 ^ s.length := by
  unfold bytesToInt
  have := ofDigits_lt_base_pow 256 (by norm_num) s.reverse
    (fun d hd => h d (List.mem_reverse.mp hd))
  simpa using this

/-- The length of the base-`b` digit list of `v < b ^ len` is at most
`len`. -/
theorem digits_len_le_of_lt_base_pow (base len v : ℕ) (hbase : 2 ≤ base)
    (hv : v < base ^ len) : (Nat.digits base v).length ≤ len := by
  rcases Nat.eq_zero_or_pos v with rfl | hv0
  · simp
  · by_contra hgt
    push_neg at hgt
    have h1 : base ^ (Nat.digits base v).length ≤ base * v :=
      Nat.base_pow_length_digits_le base v (by omega) hv0.ne'
    have h2 : base ^ (len + 1) ≤ base ^ (Nat.digits base v).length :=
      Nat.pow_le_pow_right (by omega) hgt
    rw [pow_succ] at h2
    have h3 : base ^ len * base ≤ base * v := le_trans h2 h1
    rw [Nat.mul_comm (base ^ len) base] at h3
    have h4 : base ^ len ≤ v := Nat.le_of_mul_le_mul_left h3 (by omega)
    omega

/-- Padding to one more digit than needed prepends a zero byte. -/
theorem natToBE_succ_len (base len v : ℕ) (hbase : 2 ≤ base)
    (hv : v < base ^ len) :
    natToBE base (len + 1) v = 0 :: natToBE base len v := by
  unfold natToBE
  rw [digitsLE_eq_digits base hbase v v le_rfl]
  dsimp only
  have hlen : (Nat.digits base v).length ≤ len :=
    digits_len_le_of_lt_base_pow base len v hbase hv
  have hstep : len + 1 - (Nat.digits base v).reverse.length =
      (len - (Nat.digits base v).reverse.length) + 1 := by
    simp only [List.length_reverse]
    omega
  rw [hstep, List.replicate_succ]
  rfl

/-- Big-endian re-rendering of a decoded byte string recovers it. -/
theorem natToBE_bytesToInt (s : List ℕ) (h : ∀ b ∈ s, b < 256) :
    natToBE 256 s.length (bytesToInt s) = s := by
  induction s with
  | nil => rfl
  | cons d tl ih =>
    have htl : ∀ b ∈ tl, b < 256 := fun b hb => h b (List.mem_cons_of_mem _ hb)
    rcases Nat.eq_zero_or_pos d with rfl | hd0
    · have hval : bytesToInt (0 :: tl) = bytesToInt tl := by
        unfold bytesToInt
        rw [List.reverse_cons, Nat.ofDigits_append]
        simp [Nat.ofDigits_singleton]
      rw [List.length_cons, hval, natToBE_succ_len 256 tl.length _ (by norm_num)
        (bytesToInt_lt tl htl), ih htl]
    · have hrev : (d :: tl).reverse = tl.reverse ++ [d] := List.reverse_cons d tl
      have hdigits : Nat.digits 256 (bytesToInt (d :: tl)) = tl.reverse ++ [d] := by
        unfold bytesToInt
        rw [hrev]
        refine Nat.digits_ofDigits 256 (by norm_num) _ ?_ ?_
        · intro x hx
          rcases List.mem_append.mp hx with hx | hx
          · exact htl x (List.mem_reverse.mp hx)
          · rcases List.mem_singleton.mp hx with rfl
            exact h x (List.mem_cons_self _ _)
        · intro hne
          rw [List.getLast_append]
          exact hd0.ne'
      unfold natToBE
      rw [digitsLE_eq_digits 256 (by norm_num) _ _ le_rfl, hdigits]
      rw [List.reverse_append, List.reverse_reverse]
      simp

/-- Casting a `(acc + g i) % PRIME` accumulation loop into `ZMod PRIME`
gives the plain field sum (natural-number version). -/
theorem foldl_addMod_natCast (n : ℕ) (g : ℕ → ℕ) (a : ℕ) :
    (((List.range n).foldl (fun acc i => (acc + g i) % PRIME) a : ℕ) :
      ZMod PRIME) =
      (a : ZMod PRIME) + ∑ i ∈ Finset.range n, ((g i : ℕ) : ZMod PRIME) := by
  induction n with
  | zero => simp
  | succ n ih =>
    rw [List.range_succ, List.foldl_append, List.foldl_cons, List.foldl_nil,
      ZMod.natCast_mod, Nat.cast_add, ih, Finset.sum_range_succ]
    ring

/-- Casting a `(acc + g i) % PRIME` accumulation loop into `ZMod PRIME`
gives the plain field sum (integer version). -/
theorem foldl_addMod_intCast (n : ℕ) (g : ℕ → ℤ) (a : ℤ) :
    (((List.range n).foldl (fun acc i => (acc + g i) % (PRIME : ℤ)) a : ℤ) :
      ZMod PRIME) =
      (a : ZMod PRIME) + ∑ i ∈ Finset.range n, ((g i : ℤ) : ZMod PRIME) := by
  induction n with
  | zero => simp
  | succ n ih =>
    rw [List.range_succ, List.foldl_append, List.foldl_cons, List.foldl_nil,
      ZMod.intCast_mod, Int.cast_add, ih, Finset.sum_range_succ]
    ring

/-- Casting the paired `(·* f j) % PRIME` / `(·* g j) % PRIME`
accumulation loop (the numerator/denominator loop of
`reconstruct_secret`) into `ZMod PRIME` gives plain field products over
the positions satisfying the guard. -/
theorem foldl_pair_mulMod_intCast (n : ℕ) (i : ℕ) (f g : ℕ → ℤ) (a b : ℤ) :
    ((((List.range n).foldl (fun nd j =>
        if i ≠ j then ((nd.1 * f j) % (PRIME : ℤ), (nd.2 * g j) % (PRIME : ℤ))
        else nd) (a, b)).1 : ZMod PRIME) =
      (a : ZMod PRIME) *
        ∏ j ∈ (Finset.range n).filter (fun j => i ≠ j), ((f j : ℤ) : ZMod PRIME)) ∧
    ((((List.range n).foldl (fun nd j =>
        if i ≠ j then ((nd.1 * f j) % (PRIME : ℤ), (nd.2 * g j) % (PRIME : ℤ))
        else nd) (a, b)).2 : ZMod PRIME) =
      (b : ZMod PRIME) *
        ∏ j ∈ (Finset.range n).filter (fun j => i ≠ j), ((g j : ℤ) : ZMod PRIME)) := by
  induction n with
  | zero => constructor <;> simp
  | succ n ih =>
    rw [List.range_succ, List.foldl_append, List.foldl_cons, List.foldl_nil]
    have hfilter : (Finset.range (n + 1)).filter (fun j => i ≠ j) =
        if i ≠ n then insert n ((Finset.range n).filter (fun j => i ≠ j))
        else (Finset.range n).filter (fun j => i ≠ j) := by
      rw [Finset.range_succ, Finset.filter_insert]
    by_cases hin : i ≠ n
    · rw [if_pos hin] at hfilter ⊢
      have hnotmem : n ∉ (Finset.range n).filter (fun j => i ≠ j) := by
        simp
      rw [hfilter]
      constructor
      · show (((_ : ℤ × ℤ).1 * f n) % (PRIME : ℤ) : ℤ) = (_ : ZMod PRIME)
        rw [ZMod.intCast_mod, Int.cast_mul, ih.1, Finset.prod_insert hnotmem]
        ring
      · show (((_ : ℤ × ℤ).2 * g n) % (PRIME : ℤ) : ℤ) = (_ : ZMod PRIME)
        rw [ZMod.intCast_mod, Int.cast_mul, ih.2, Finset.prod_insert hnotmem]
        ring
    · rw [if_neg hin] at hfilter ⊢
      rw [hfilter]
      exact ih

/-- `_evaluate_polynomial` computes, mod `PRIME`, the evaluation of the
sharing polynomial. -/
theorem evaluate_polynomial_cast (coefficients : List ℕ) (x : ℕ) :
    ((evaluate_polynomial coefficients x : ℕ) : ZMod PRIME) =
      (coeffsPoly coefficients).eval ((x : ℕ) : ZMod PRIME) := by
  unfold evaluate_polynomial coeffsPoly
  rw [foldl_addMod_natCast, Polynomial.eval_finset_sum]
  rw [Nat.cast_zero, zero_add]
  refine Finset.sum_congr rfl fun k hk => ?_
  rw [Nat.cast_mul, ZMod.natCast_mod, Nat.cast_pow]
  simp [mul_comm]

/-- The sharing polynomial has degree below the number of
coefficients. -/
theorem coeffsPoly_degree_lt (coefficients : List ℕ) :
    (coeffsPoly coefficients).degree < (coefficients.length : ℕ) := by
  unfold coeffsPoly
  refine lt_of_le_of_lt (Polynomial.degree_sum_le _ _) ?_
  rw [Finset.sup_lt_iff (by exact_mod_cast WithBot.bot_lt_coe _)]
  intro k hk
  refine lt_of_le_of_lt (Polynomial.degree_C_mul_X_pow_le k _) ?_
  exact_mod_cast Finset.mem_range.mp hk

/-- The sharing polynomial evaluates at 0 to its constant term — the
secret. -/
theorem coeffsPoly_eval_zero (coefficients : List ℕ)
    (h : 0 < coefficients.length) :
    (coeffsPoly coefficients).eval 0 =
      ((coefficients.getD 0 0 : ℕ) : ZMod PRIME) := by
  unfold coeffsPoly
  rw [Polynomial.eval_finset_sum]
  rw [Finset.sum_eq_single_of_mem 0 (Finset.mem_range.mpr h)]
  · simp
  · intro k hk hkne
    simp [zero_pow hkne]

/-- The Lagrange loop of `reconstruct_secret`, cast into `ZMod PRIME`,
is the textbook interpolation-at-zero sum, provided the nodes are
distinct in the field. -/
theorem lagrangeInterpolateAtZero_cast (pts : List (ℤ × ℤ))
    (hinj : ∀ a b, a < pts.length → b < pts.length →
      (((pts.getD a (0, 0)).1 : ℤ) : ZMod PRIME) =
        (((pts.getD b (0, 0)).1 : ℤ) : ZMod PRIME) → a = b) :
    ((lagrangeInterpolateAtZero pts : ℤ) : ZMod PRIME) =
      ∑ i ∈ Finset.range pts.length,
        (((pts.getD i (0, 0)).2 : ℤ) : ZMod PRIME) *
          ((∏ j ∈ (Finset.range pts.length).erase i,
              (-(((pts.getD j (0, 0)).1 : ℤ) : ZMod PRIME))) *
           (∏ j ∈ (Finset.range pts.length).erase i,
              ((((pts.getD i (0, 0)).1 : ℤ) : ZMod PRIME) -
               (((pts.getD j (0, 0)).1 : ℤ) : ZMod PRIME)))⁻¹) := by
  unfold lagrangeInterpolateAtZero
  rw [foldl_addMod_intCast]
  rw [Int.cast_zero, zero_add]
  refine Finset.sum_congr rfl fun i hi => ?_
  have hi' : i < pts.length := Finset.mem_range.mp hi
  have hpair := foldl_pair_mulMod_intCast pts.length i
    (fun j => -(pts.getD j (0, 0)).1)
    (fun j => (pts.getD i (0, 0)).1 - (pts.getD j (0, 0)).1) 1 1
  have hfilter : (Finset.range pts.length).filter (fun j => i ≠ j) =
      (Finset.range pts.length).erase i :=
    Finset.filter_ne (Finset.range pts.length) i
  rw [Int.cast_mul]
  congr 1
  have hden : (((List.range pts.length).foldl (fun nd j =>
      if i ≠ j then
        ((nd.1 * -(pts.getD j (0, 0)).1) % (PRIME : ℤ),
         (nd.2 * ((pts.getD i (0, 0)).1 - (pts.getD j (0, 0)).1)) % (PRIME : ℤ))
      else nd) (1, 1)).2 : ZMod PRIME) =
      ∏ j ∈ (Finset.range pts.length).erase i,
        ((((pts.getD i (0, 0)).1 : ℤ) : ZMod PRIME) -
         (((pts.getD j (0, 0)).1 : ℤ) : ZMod PRIME)) := by
    rw [hpair.2, hfilter, Int.cast_one, one_mul]
    refine Finset.prod_congr rfl fun j hj => ?_
    rw [Int.cast_sub]
  have hdenne : (((List.range pts.length).foldl (fun nd j =>
      if i ≠ j then
        ((nd.1 * -(pts.getD j (0, 0)).1) % (PRIME : ℤ),
         (nd.2 * ((pts.getD i (0, 0)).1 - (pts.getD j (0, 0)).1)) % (PRIME : ℤ))
      else nd) (1, 1)).2 : ZMod PRIME) ≠ 0 := by
    rw [hden]
    rw [Finset.prod_ne_zero_iff]
    intro j hj
    have hjne : j ≠ i := (Finset.mem_erase.mp hj).1
    have hjlt : j < pts.length := Finset.mem_range.mp (Finset.mem_erase.mp hj).2
    refine sub_ne_zero_of_ne fun heq => ?_
    exact hjne (hinj i j hi' hjlt heq).symm
  rw [ZMod.intCast_mod, Int.cast_mul, hpair.1, mod_inverse_cast _ hdenne,
    hden, hfilter, Int.cast_one, one_mul]
  congr 1
  refine Finset.prod_congr rfl fun j hj => ?_
  rw [Int.cast_neg]

/-- Evaluating Mathlib's Lagrange interpolant at zero gives the sum the
code computes. -/
theorem eval_interpolate_at_zero (s : Finset ℕ) (v r : ℕ → ZMod PRIME) :
    (Lagrange.interpolate s v r).eval 0 =
      ∑ i ∈ s, r i * ((∏ j ∈ s.erase i, (-v j)) *
        (∏ j ∈ s.erase i, (v i - v j))⁻¹) := by
  rw [Lagrange.interpolate_apply, Polynomial.eval_finset_sum]
  refine Finset.sum_congr rfl fun i hi => ?_
  rw [Polynomial.eval_mul, Polynomial.eval_C]
  congr 1
  unfold Lagrange.basis
  rw [Polynomial.eval_prod]
  have hterm : ∀ j ∈ s.erase i,
      (Lagrange.basisDivisor (v i) (v j)).eval 0 = (v i - v j)⁻¹ * (-v j) := by
    intro j hj
    unfold Lagrange.basisDivisor
    rw [Polynomial.eval_mul, Polynomial.eval_C, Polynomial.eval_sub,
      Polynomial.eval_X, Polynomial.eval_C, zero_sub]
  rw [Finset.prod_congr rfl hterm, Finset.prod_mul_distrib,
    ← Finset.prod_inv_distrib]
  rw [Finset.prod_inv_distrib]
  ring

/-- The Lagrange loop returns a value in `[0, PRIME)` whenever there is
at least one point. -/
theorem lagrangeInterpolateAtZero_bound (pts : List (ℤ × ℤ))
    (h : 0 < pts.length) :
    0 ≤ lagrangeInterpolateAtZero pts ∧
    lagrangeInterpolateAtZero pts < (PRIME : ℤ) := by
  have hp : (0 : ℤ) < (PRIME : ℤ) := by exact_mod_cast PRIME_pos
  unfold lagrangeInterpolateAtZero
  obtain ⟨m, hm⟩ : ∃ m, pts.length = m + 1 := ⟨pts.length - 1, by omega⟩
  rw [hm, List.range_succ, List.foldl_append, List.foldl_cons, List.foldl_nil]
  exact ⟨Int.emod_nonneg _ hp.ne', Int.emod_lt_of_pos _ hp⟩

/-- **C1.** Shamir round-trip: for every secret byte string `s` with
`int(s) < PRIME` (`PRIME = 2^521 − 1`), every threshold pair
`2 ≤ t ≤ n ≤ 20`, every draw of the `t − 1` CSPRNG tail coefficients,
and every subset of `t` shares taken from a fresh
`split_secret(s)` under parameters `(t, n)`,
`reconstruct_secret(subset, len(s))` returns exactly `s`. -/
theorem shamir_round_trip
    (t n : ℕ) (ht : 2 ≤ t) (htn : t ≤ n) (hn : n ≤ 20)
    (secretBytes : List ℕ) (hbytes : ∀ b ∈ secretBytes, b < 256)
    (hsecret : bytesToInt secretBytes < PRIME)
    (randCoeffs : List ℕ) (hrand : randCoeffs.length = t - 1)
    (shares : List (ℕ × List ℕ))
    (hshares : split_secret n secretBytes randCoeffs = some shares)
    (sub : List (ℕ × List ℕ)) (hsub : sub.Sublist shares)
    (hsublen : sub.length = t) :
    reconstruct_secret t sub secretBytes.length = some secretBytes := by
  set S : ℕ := bytesToInt secretBytes with hS
  set coeffs : List ℕ := S :: randCoeffs with hcoeffs
  have hclen : coeffs.length = t := by
    rw [hcoeffs, List.length_cons, hrand]
    omega
  -- the shares produced by split_secret
  unfold split_secret at hshares
  rw [if_neg (not_le.mpr hsecret)] at hshares
  have hshm : shares = (List.range n).map (fun k =>
      (k + 1, natToBE 16 primeHexWidth (evaluate_polynomial coeffs (k + 1)))) :=
    (Option.some.inj hshares).symm
  have hmem : ∀ p ∈ sub, ∃ k, k < n ∧
      p = (k + 1, natToBE 16 primeHexWidth (evaluate_polynomial coeffs (k + 1))) := by
    intro p hp
    have hp2 := hsub.subset hp
    rw [hshm] at hp2
    rcases List.mem_map.mp hp2 with ⟨k, hk, rfl⟩
    exact ⟨k, List.mem_range.mp hk, rfl⟩
  -- reconstruction on the full t-element subset
  unfold reconstruct_secret
  rw [if_neg (by omega)]
  have htake : sub.take t = sub := by
    rw [← hsublen]
    exact List.take_length sub
  rw [htake]
  set points : List (ℤ × ℤ) :=
    sub.map (fun s => ((s.1 : ℤ), (hexToInt s.2 : ℤ))) with hpoints
  have hptslen : points.length = t := by
    rw [hpoints, List.length_map, hsublen]
  have hsubg : ∀ j, j < t → sub.getD j (0, []) ∈ sub := by
    intro j hj
    rw [List.getD_eq_getElem sub (0, []) (by omega)]
    exact List.getElem_mem _
  have hpt : ∀ j, j < t → points.getD j (0, 0) =
      (((sub.getD j (0, [])).1 : ℤ), (hexToInt (sub.getD j (0, [])).2 : ℤ)) := by
    intro j hj
    have hj2 : j < sub.length := by omega
    have hj1 : j < (sub.map (fun s =>
        ((s.1 : ℤ), (hexToInt s.2 : ℤ)))).length := by
      rw [List.length_map]
      omega
    rw [hpoints, List.getD_eq_getElem _ _ hj1, List.getElem_map,
      List.getD_eq_getElem sub (0, []) hj2]
  -- index and value of each selected share
  have hshape : ∀ j, j < t → ∃ k, k < n ∧
      (sub.getD j (0, [])).1 = k + 1 ∧
      hexToInt (sub.getD j (0, [])).2 =
        evaluate_polynomial coeffs ((sub.getD j (0, [])).1) := by
    intro j hj
    rcases hmem _ (hsubg j hj) with ⟨k, hk, hkp⟩
    refine ⟨k, hk, ?_, ?_⟩
    · rw [hkp]
    · rw [hkp]
      exact hexToInt_natToBE _ _
  have hidx_le : ∀ j, j < t → 1 ≤ (sub.getD j (0, [])).1 ∧
      (sub.getD j (0, [])).1 ≤ n := by
    intro j hj
    rcases hshape j hj with ⟨k, hk, hk1, -⟩
    omega
  -- distinct indices: positions map injectively into the field
  have hfstnodup : (sub.map Prod.fst).Nodup := by
    refine List.Nodup.sublist (hsub.map Prod.fst) ?_
    rw [hshm, List.map_map]
    have : (Prod.fst ∘ fun k =>
        ((k + 1 : ℕ), natToBE 16 primeHexWidth
          (evaluate_polynomial coeffs (k + 1)))) = fun k => k + 1 := rfl
    rw [this]
    exact List.Nodup.map (fun a b h => by omega) (List.nodup_range n)
  have hposinj : ∀ a b, a < t → b < t →
      (sub.getD a (0, [])).1 = (sub.getD b (0, [])).1 → a = b := by
    intro a b ha hb heq
    have ha' : a < sub.length := by omega
    have hb' : b < sub.length := by omega
    have ham : a < (sub.map Prod.fst).length := by
      rw [List.length_map]
      omega
    have hbm : b < (sub.map Prod.fst).length := by
      rw [List.length_map]
      omega
    refine (@List.Nodup.getElem_inj_iff _ _ hfstnodup a ham b hbm).mp ?_
    rw [List.getElem_map, List.getElem_map]
    rw [List.getD_eq_getElem sub (0, []) ha', List.getD_eq_getElem sub (0, []) hb'] at heq
    exact heq
  have hinj : ∀ a b, a < points.length → b < points.length →
      (((points.getD a (0, 0)).1 : ℤ) : ZMod PRIME) =
        (((points.getD b (0, 0)).1 : ℤ) : ZMod PRIME) → a = b := by
    intro a b ha hb heq
    have ha' : a < t := by omega
    have hb' : b < t := by omega
    rw [hpt a ha', hpt b hb'] at heq
    rw [Int.cast_natCast, Int.cast_natCast] at heq
    have hva := ZMod.val_cast_of_lt
      (show (sub.getD a (0, [])).1 < PRIME by
        have := hidx_le a ha'
        have := twenty_lt_PRIME
        omega)
    have hvb := ZMod.val_cast_of_lt
      (show (sub.getD b (0, [])).1 < PRIME by
        have := hidx_le b hb'
        have := twenty_lt_PRIME
        omega)
    refine hposinj a b ha' hb' ?_
    rw [← hva, ← hvb, heq]
  -- cast the interpolation loop into the field
  have hcast := lagrangeInterpolateAtZero_cast points hinj
  -- identify the sum with the evaluation of Mathlib's interpolant
  set v : ℕ → ZMod PRIME :=
    fun j => (((points.getD j (0, 0)).1 : ℤ) : ZMod PRIME) with hv
  set r : ℕ → ZMod PRIME :=
    fun j => (((points.getD j (0, 0)).2 : ℤ) : ZMod PRIME) with hr
  rw [hptslen] at hcast
  have hinterp : ((lagrangeInterpolateAtZero points : ℤ) : ZMod PRIME) =
      (Lagrange.interpolate (Finset.range t) v r).eval 0 := by
    rw [hcast]
    exact (eval_interpolate_at_zero (Finset.range t) v r).symm
  -- the interpolant is the sharing polynomial
  have hvs : Set.InjOn v (Finset.range t) := by
    intro a ha b hb heq
    have ha' : a < t := by
      simpa using ha
    have hb' : b < t := by
      simpa using hb
    exact hinj a b (by omega) (by omega) heq
  have hvalues : ∀ j ∈ Finset.range t, r j = (coeffsPoly coeffs).eval (v j) := by
    intro j hj
    have hj' : j < t := Finset.mem_range.mp hj
    rcases hshape j hj' with ⟨k, hk, hk1, hk2⟩
    show (((points.getD j (0, 0)).2 : ℤ) : ZMod PRIME) =
      (coeffsPoly coeffs).eval ((((points.getD j (0, 0)).1 : ℤ)) : ZMod PRIME)
    rw [hpt j hj']
    dsimp only
    rw [Int.cast_natCast, Int.cast_natCast, hk2]
    exact evaluate_polynomial_cast coeffs _
  have hdeg : (coeffsPoly coeffs).degree < (Finset.range t).card := by
    rw [Finset.card_range, ← hclen]
    exact coeffsPoly_degree_lt coeffs
  have hfit : Lagrange.interpolate (Finset.range t) v r = coeffsPoly coeffs := by
    have h1 : Lagrange.interpolate (Finset.range t) v r =
        Lagrange.interpolate (Finset.range t) v
          (fun i => (coeffsPoly coeffs).eval (v i)) :=
      Lagrange.interpolate_eq_of_values_eq_on _ _ hvalues
    rw [h1]
    exact (Lagrange.eq_interpolate hvs hdeg).symm
  -- hence the loop returns (a value congruent to) the secret
  have hfield : ((lagrangeInterpolateAtZero points : ℤ) : ZMod PRIME) =
      ((S : ℕ) : ZMod PRIME) := by
    rw [hinterp, hfit, coeffsPoly_eval_zero coeffs (by omega)]
    rfl
  have hbound := lagrangeInterpolateAtZero_bound points (by omega)
  set L : ℤ := lagrangeInterpolateAtZero points with hL
  have hLnat : L = ((L.toNat : ℕ) : ℤ) := (Int.toNat_of_nonneg hbound.1).symm
  have hLlt : L.toNat < PRIME := by
    have := hbound.2
    omega
  have hLeq : L.toNat = S := by
    have hc : ((L.toNat : ℕ) : ZMod PRIME) = ((S : ℕ) : ZMod PRIME) := by
      rw [← Int.cast_natCast (R := ZMod PRIME), ← hLnat]
      exact hfield
    have h1 := ZMod.val_cast_of_lt hLlt
    have h2 := ZMod.val_cast_of_lt hsecret
    rw [← h1, ← h2, hc]
  -- convert back to bytes
  have hVlt : L < (256 : ℤ) ^ secretBytes.length := by
    rw [hLnat, hLeq]
    exact_mod_cast bytesToInt_lt secretBytes hbytes
  unfold intToBytes
  rw [if_pos ⟨hbound.1, hVlt⟩, hLeq]
  exact congrArg some (natToBE_bytesToInt secretBytes hbytes)

/-- Concrete instance of the round-trip: the secret byte string `[1]`
split under `(t, n) = (2, 2)` with CSPRNG tail coefficient `1`, then
reconstructed from both shares. -/
theorem shamir_round_trip_witness :
    reconstruct_secret 2
      [(1, natToBE 16 primeHexWidth 2), (2, natToBE 16 primeHexWidth 3)] 1 =
      some [1] :=
  shamir_round_trip 2 2 (by decide) (by decide) (by decide)
    [1] (by decide) (by decide)
    [1] rfl
    [(1, natToBE 16 primeHexWidth 2), (2, natToBE 16 primeHexWidth 3)]
    (by decide)
    [(1, natToBE 16 primeHexWidth 2), (2, natToBE 16 primeHexWidth 3)]
    (List.Sublist.refl _) rfl
